import Mathlib

/-!
# libxpc, `xpc_misc.c`: object lifetime, transport selection, wire framing

A shallow embedding of `src/xpc_misc.c` and theorems about it.

* Memory that the C code addresses through pointers is passed explicitly:
  a received buffer is a function from byte offsets to bytes, a buffer that
  the code builds is a list of bytes, an object is a tree that carries the
  address and the reference count of every node.
* Calls whose effect matters to a caller (`free`, `xpc_unpack`, stores
  through out-parameters) are recorded in event lists.
* What `xpc_internal.h`, the mpack library and the transports declare is
  not part of this file of the repository; it enters as parameters
  (`frame_decl`, `mpack_codec`, `xt_recv_result`, `xt_send_call`,
  `build_config`, `description_env`).
-/

namespace XpcMisc

/-! ## Bytes and machine integers -/

/-- One byte of memory. -/
abbrev Byte := Fin 256

/-- The constant `RECV_BUFFER_SIZE` of line 38. -/
def RECV_BUFFER_SIZE : Nat := 65536

/-- Number of values of `size_t` and of `uint64_t` (both 64 bits wide). -/
def SIZE_MOD : Nat := 2 ^ 64

/-- Number of values of `u_int`, the operand type of `atomic_add_int` and
`atomic_fetchadd_int`. -/
def UINT_MOD : Nat := 2 ^ 32

/-- The low byte of a number. -/
def low_byte (v : Nat) : Byte := ⟨v % 256, Nat.mod_lt v (by decide)⟩

/-- Reads a `w`-byte unsigned integer stored least significant byte first at
offset `off` of the memory `mem`. -/
def load_le (mem : Nat → Byte) (off : Nat) : Nat → Nat
  | 0 => 0
  | w + 1 => (mem off).val + 256 * load_le mem (off + 1) w

/-- Stores the low `w` bytes of `v`, least significant byte first, at offset
`off` of the buffer `buf` (an assignment to an integer field). -/
def store_le (buf : List Byte) (off : Nat) (v : Nat) : Nat → List Byte
  | 0 => buf
  | w + 1 => store_le (buf.set off (low_byte v)) (off + 1) (v / 256) w

/-- The call `memcpy(dst + off, src, |src|)`. -/
def memcpy (dst : List Byte) (off : Nat) : List Byte → List Byte
  | [] => dst
  | b :: src => memcpy (dst.set off b) (off + 1) src

/-- The call `memset(p, 0, size)` on a fresh allocation of `size` bytes. -/
def memset_zero (size : Nat) : List Byte := List.replicate size 0

/-- A buffer viewed as memory: offset `i` holds the `i`-th byte. Offsets past
the end read as zero. -/
def mem_of (buf : List Byte) : Nat → Byte := fun i => buf.getD i 0

/-- The `len` bytes of `mem` that start at offset `off`. -/
def slice (mem : Nat → Byte) (off len : Nat) : List Byte :=
  (List.range len).map (fun i => mem (off + i))

/-- The value of `ret - sizeof(*header)` where `ret` is an `int` and the
size a `size_t`: `ret` is converted to `size_t` and the difference is taken
modulo `2 ^ 64`. -/
def size_t_sub (ret : Int) (hsize : Nat) : Nat :=
  ((ret - (hsize : Int)) % (SIZE_MOD : Int)).toNat

/-! ## Declarations taken from `xpc_internal.h` -/

/-- The declaration of `struct xpc_frame_header` and of
`XPC_PROTOCOL_VERSION`, which `xpc_internal.h` holds: the size of the
header, the offsets of its three named fields and the width of the version
field. `length` and `id` are `uint64_t`. Fields are stored least significant
byte first. -/
structure frame_decl where
  hsize : Nat
  off_length : Nat
  off_id : Nat
  off_version : Nat
  version_width : Nat
  XPC_PROTOCOL_VERSION : Nat
deriving DecidableEq, Repr

/-- Two byte ranges do not overlap. -/
def ranges_disjoint (a wa b wb : Nat) : Prop := a + wa ≤ b ∨ b + wb ≤ a

instance (a wa b wb : Nat) : Decidable (ranges_disjoint a wa b wb) := by
  unfold ranges_disjoint; infer_instance

/-- A declaration a C compiler can produce: the three fields lie inside the
header and do not overlap, the version field is one to eight bytes wide and
can hold the protocol version, and the header size is a `size_t`. -/
def frame_decl.wf (L : frame_decl) : Prop :=
  L.off_length + 8 ≤ L.hsize ∧ L.off_id + 8 ≤ L.hsize ∧
  L.off_version + L.version_width ≤ L.hsize ∧
  ranges_disjoint L.off_length 8 L.off_id 8 ∧
  ranges_disjoint L.off_length 8 L.off_version L.version_width ∧
  ranges_disjoint L.off_id 8 L.off_version L.version_width ∧
  0 < L.version_width ∧ L.version_width ≤ 8 ∧
  L.XPC_PROTOCOL_VERSION < 256 ^ L.version_width ∧
  L.hsize < SIZE_MOD

instance (L : frame_decl) : Decidable L.wf := by
  unfold frame_decl.wf; infer_instance

/-- Modelled from the spec: the declaration of `struct xpc_frame_header`
and the value of `XPC_PROTOCOL_VERSION` (`xpc_internal.h` is missing).
Section 6 of the specification lists the fields as length (64-bit), id
(64-bit) and version, in this order; the version is taken as a 64-bit field
holding 1. Used for concrete inputs only. -/
def spec_frame : frame_decl where
  hsize := 24
  off_length := 0
  off_id := 8
  off_version := 16
  version_width := 8
  XPC_PROTOCOL_VERSION := 1

/-! ## The object model -/

/-- The payload of a value that is neither a dictionary nor an array
(the members of the union `xpc_u` that own no child). A double is held as
its 64-bit pattern. -/
inductive xpc_scalar where
  | null
  | bool (b : Bool)
  | int64 (i : Int)
  | uint64 (ui : Nat)
  | double (bits : Nat)
  | date (ui : Nat)
  | string (str : String)
  | uuid (bytes : List Byte)
  | data (bytes : List Byte)
  | endpoint (port : Int)
  | fd (fd : Int)
  | error (code : Int)
  | invalid
deriving DecidableEq, Repr

/-- The object `struct xpc_object`, with the objects it links to held
inline. Every node carries the address it is allocated at (`addr`) and its
reference count (`xo_refcnt`). A dictionary owns a queue of
`struct xpc_dict_pair` records, each with its own address, its key and its
value; an array owns a queue of objects. -/
inductive xpc_object where
  | dictionary (addr xo_refcnt : Nat) (xo_dict : List (Nat × String × xpc_object))
  | array (addr xo_refcnt : Nat) (xo_array : List xpc_object)
  | scalar (addr xo_refcnt : Nat) (xo_u : xpc_scalar)
deriving Repr

/-- The values of the field `xo_xpc_type`. -/
inductive xpc_type_tag where
  | _XPC_TYPE_INVALID | _XPC_TYPE_DICTIONARY | _XPC_TYPE_ARRAY | _XPC_TYPE_BOOL
  | _XPC_TYPE_ENDPOINT | _XPC_TYPE_NULL | _XPC_TYPE_INT64 | _XPC_TYPE_UINT64
  | _XPC_TYPE_DATE | _XPC_TYPE_DATA | _XPC_TYPE_STRING | _XPC_TYPE_UUID
  | _XPC_TYPE_FD | _XPC_TYPE_ERROR | _XPC_TYPE_DOUBLE
deriving DecidableEq, Repr

/-- The field `xo_xpc_type` of an object. -/
def xpc_object.xo_xpc_type : xpc_object → xpc_type_tag
  | .dictionary _ _ _ => ._XPC_TYPE_DICTIONARY
  | .array _ _ _ => ._XPC_TYPE_ARRAY
  | .scalar _ _ .null => ._XPC_TYPE_NULL
  | .scalar _ _ (.bool _) => ._XPC_TYPE_BOOL
  | .scalar _ _ (.int64 _) => ._XPC_TYPE_INT64
  | .scalar _ _ (.uint64 _) => ._XPC_TYPE_UINT64
  | .scalar _ _ (.double _) => ._XPC_TYPE_DOUBLE
  | .scalar _ _ (.date _) => ._XPC_TYPE_DATE
  | .scalar _ _ (.string _) => ._XPC_TYPE_STRING
  | .scalar _ _ (.uuid _) => ._XPC_TYPE_UUID
  | .scalar _ _ (.data _) => ._XPC_TYPE_DATA
  | .scalar _ _ (.endpoint _) => ._XPC_TYPE_ENDPOINT
  | .scalar _ _ (.fd _) => ._XPC_TYPE_FD
  | .scalar _ _ (.error _) => ._XPC_TYPE_ERROR
  | .scalar _ _ .invalid => ._XPC_TYPE_INVALID

/-- The address of an object (the pointer value that designates it). -/
def xpc_object.addr : xpc_object → Nat
  | .dictionary a _ _ => a
  | .array a _ _ => a
  | .scalar a _ _ => a

/-- The reference count of an object. -/
def xpc_object.xo_refcnt : xpc_object → Nat
  | .dictionary _ r _ => r
  | .array _ r _ => r
  | .scalar _ r _ => r

/-- The object with its reference count replaced (a store to `xo_refcnt`). -/
def xpc_object.set_refcnt (r : Nat) : xpc_object → xpc_object
  | .dictionary a _ ps => .dictionary a r ps
  | .array a _ es => .array a r es
  | .scalar a _ v => .scalar a r v

/-! ## Teardown (lines 70-97 and 145-155) -/

/-- A call of `free` made during teardown: on a `struct xpc_object` or on a
`struct xpc_dict_pair`, with the address freed. -/
inductive heap_event where
  | free_object (addr : Nat)
  | free_pair (addr : Nat)
deriving DecidableEq, Repr

mutual
/-- The function `xpc_object_destroy` (lines 145-155): a dictionary runs
`xpc_dictionary_destroy`, an array runs `xpc_array_destroy`, then the
object itself is freed. The result lists the calls of `free` in order. The
reference count is not read. -/
def xpc_object_destroy : xpc_object → List heap_event
  | .dictionary a _ ps => xpc_dictionary_destroy ps ++ [heap_event.free_object a]
  | .array a _ es => xpc_array_destroy es ++ [heap_event.free_object a]
  | .scalar a _ _ => [heap_event.free_object a]
/-- The loop of `xpc_dictionary_destroy` (lines 78-82) over the queue of
pairs: unlink the pair, destroy its value, free the pair. -/
def xpc_dictionary_destroy : List (Nat × String × xpc_object) → List heap_event
  | [] => []
  | (p, _, v) :: rest =>
    xpc_object_destroy v ++ heap_event.free_pair p :: xpc_dictionary_destroy rest
/-- The loop of `xpc_array_destroy` (lines 93-96) over the queue of
elements: unlink the element and destroy it. -/
def xpc_array_destroy : List xpc_object → List heap_event
  | [] => []
  | v :: rest => xpc_object_destroy v ++ xpc_array_destroy rest
end

/-! ## Reference counting (lines 157-177) -/

/-- The function `xpc_retain`: adds one to the count (an `u_int`, so modulo
`2 ^ 32`) and returns the pointer it was given. The result is the returned
pointer and the object after the call. -/
def xpc_retain (xo : xpc_object) : Nat × xpc_object :=
  (xo.addr, xo.set_refcnt ((xo.xo_refcnt + 1) % UINT_MOD))

/-- The function `xpc_release`: `atomic_fetchadd_int(&xo->xo_refcnt, -1)`
adds `2 ^ 32 - 1` modulo `2 ^ 32` and yields the old count; when the old
count is greater than one the function returns, otherwise it calls
`xpc_object_destroy`. The result is the object after the decrement and,
when `xpc_object_destroy` was called, the calls of `free` it made. -/
def xpc_release (xo : xpc_object) : xpc_object × Option (List heap_event) :=
  let old := xo.xo_refcnt
  let xo1 := xo.set_refcnt ((old + (UINT_MOD - 1)) % UINT_MOD)
  if old > 1 then (xo1, none) else (xo1, some (xpc_object_destroy xo1))

/-- A call on an object by one of its owners. -/
inductive rc_call where
  | retain
  | release
deriving DecidableEq, Repr

/-- An object together with the record of the `xpc_object_destroy` calls
that `xpc_release` has made on it (one entry per call). -/
structure rc_state where
  xo : xpc_object
  destroy_calls : List (List heap_event)

/-- One call of `xpc_retain` or `xpc_release` on the object of the state. -/
def rc_step (s : rc_state) : rc_call → rc_state
  | .retain => ⟨(xpc_retain s.xo).2, s.destroy_calls⟩
  | .release =>
    match xpc_release s.xo with
    | (xo1, none) => ⟨xo1, s.destroy_calls⟩
    | (xo1, some t) => ⟨xo1, s.destroy_calls ++ [t]⟩

/-- A sequence of calls on the same object, in order. -/
def rc_run (s : rc_state) (calls : List rc_call) : rc_state :=
  calls.foldl rc_step s

/-- The releases never outnumber the retains in any initial part of the
sequence; `held` is the number of retains not yet released. -/
def rc_balanced (held : Nat) : List rc_call → Bool
  | [] => true
  | .retain :: cs => rc_balanced (held + 1) cs
  | .release :: cs => held != 0 && rc_balanced (held - 1) cs

/-! ## Transport selection (lines 43-68) -/

/-- The two transports declared at lines 43-44. -/
inductive xpc_transport where
  | unix_transport
  | mach_transport
deriving DecidableEq, Repr

/-- What the build fixes: whether `MACH` is defined, and for each of the two
weak symbols whether a definition is linked in (the address of a weak
symbol without definition is the null pointer). -/
structure build_config where
  MACH : Bool
  unix_linked : Bool
  mach_linked : Bool
deriving DecidableEq, Repr

/-- The value of `&unix_transport` and of `&mach_transport`; `none` is the
null pointer. -/
def build_config.addr_of (B : build_config) : xpc_transport → Option xpc_transport
  | .unix_transport => if B.unix_linked then some .unix_transport else none
  | .mach_transport => if B.mach_linked then some .mach_transport else none

/-- The outcome of one call of `xpc_get_transport`: the pointer returned,
the static `selected_transport` after the call, and the number of
`getenv` calls made. -/
structure get_transport_result where
  ret : Option xpc_transport
  selected_transport : Option xpc_transport
  getenv_calls : Nat
deriving DecidableEq, Repr

/-- The function `xpc_get_transport` (lines 47-68). `env` is what
`getenv("XPC_TRANSPORT")` yields at the time of the call (`none` is the
null pointer), `selected_transport` the static before the call. -/
def xpc_get_transport (B : build_config) (env : Option String)
    (selected_transport : Option xpc_transport) : get_transport_result :=
  match selected_transport with
  | some t => ⟨some t, some t, 0⟩
  | none =>
    match env with
    | some e =>
      let sel1 := if e = "unix" then B.addr_of .unix_transport else none
      let sel2 := if e = "mach" then B.addr_of .mach_transport else sel1
      ⟨sel2, sel2, 1⟩
    | none =>
      let sel := if B.MACH then B.addr_of .mach_transport else B.addr_of .unix_transport
      ⟨sel, sel, 1⟩

/-- Successive calls of `xpc_get_transport`, the environment holding
`envs[k]` at the time of call `k`; the static starts as given. The result
lists the outcome of every call. -/
def get_transport_calls (B : build_config) :
    Option xpc_transport → List (Option String) → List get_transport_result
  | _, [] => []
  | sel, env :: envs =>
    let r := xpc_get_transport B env sel
    r :: get_transport_calls B r.selected_transport envs

/-! ## Framing (lines 99-143) -/

/-- The external codec: `xpc2mpack` stands for the growable writer run on an
object, yielding the packed bytes, or `none` when `mpack_writer_destroy`
does not report `mpack_ok`; `mpack_tree_init` parses bytes into a tree, or
`none` when `mpack_tree_error` is not `mpack_ok`; `mpack2xpc` converts the
root of a tree to an object (`none` is the null pointer). -/
structure mpack_codec (τ : Type) where
  xpc2mpack : xpc_object → Option (List Byte)
  mpack_tree_init : List Byte → Option τ
  mpack2xpc : τ → Option xpc_object

/-- The outcome of `xpc_pack`: the value returned and what was stored
through `buf` and `size` (`none` when nothing was stored). -/
structure pack_result where
  ret : Int
  buf : Option (List Byte)
  size : Option Nat
deriving DecidableEq, Repr

/-- The function `xpc_pack` (lines 99-127). -/
def xpc_pack {τ : Type} (L : frame_decl) (C : mpack_codec τ) (xo : xpc_object)
    (id : Nat) : pack_result :=
  match C.xpc2mpack xo with
  | none => ⟨-1, none, none⟩
  | some packed =>
    let packed_size := packed.length
    let total := (packed_size + L.hsize) % SIZE_MOD
    let ret := memset_zero total
    let ret := store_le ret L.off_length packed_size 8
    let ret := store_le ret L.off_id id 8
    let ret := store_le ret L.off_version L.XPC_PROTOCOL_VERSION L.version_width
    let ret := memcpy ret L.hsize packed
    ⟨0, some ret, some total⟩

/-- The function `xpc_unpack` (lines 129-143) on the `size` bytes at `buf`,
given as a list. -/
def xpc_unpack {τ : Type} (C : mpack_codec τ) (buf : List Byte) : Option xpc_object :=
  match C.mpack_tree_init buf with
  | none => none
  | some tree => C.mpack2xpc tree

/-! ## Receiving (lines 389-436) -/

/-- What the call `transport->xt_recv(...)` leaves behind: the value it
returns and the contents of the receive buffer, by offset. The
out-parameters `remote`, `resources`, `nresources` and `creds` are written
by the transport alone and `xpc_pipe_receive` never reads or writes them;
they are not carried. -/
structure xt_recv_result where
  ret : Int
  buffer : Nat → Byte

/-- What `xpc_pipe_receive` does that a caller can observe besides the value
returned: a store through `id`, a call of `xpc_unpack` with the bytes it is
given, a store through `result`, the release of the receive buffer. -/
inductive recv_event where
  | store_id (v : Nat)
  | unpack (payload : List Byte)
  | store_result (r : Option xpc_object)
  | free_buffer

/-- The outcome of `xpc_pipe_receive`: the value returned, the contents of
`*id` and `*result` after the call, and the events in order. -/
structure pipe_receive_result where
  ret : Int
  id : Nat
  result : Option xpc_object
  events : List recv_event

/-- The field `header->length` of the header at the start of `mem`. -/
def header_length (L : frame_decl) (mem : Nat → Byte) : Nat :=
  load_le mem L.off_length 8

/-- The field `header->id` of the header at the start of `mem`. -/
def header_id (L : frame_decl) (mem : Nat → Byte) : Nat :=
  load_le mem L.off_id 8

/-- The field `header->version` of the header at the start of `mem`. -/
def header_version (L : frame_decl) (mem : Nat → Byte) : Nat :=
  load_le mem L.off_version L.version_width

/-- The argument of the call `xpc_unpack(buffer + sizeof(*header),
header->length)` of line 429: `header->length` bytes starting right after
the header. -/
def frame_payload (L : frame_decl) (r : xt_recv_result) : List Byte :=
  slice r.buffer L.hsize (header_length L r.buffer)

/-- The function `xpc_pipe_receive` (lines 389-436) from the point where
`xt_recv` has returned; `id0` and `result0` are the contents of `*id` and
`*result` before the call. -/
def xpc_pipe_receive {τ : Type} (L : frame_decl) (C : mpack_codec τ)
    (r : xt_recv_result) (id0 : Nat) (result0 : Option xpc_object) :
    pipe_receive_result :=
  if r.ret < 0 then ⟨-1, id0, result0, []⟩
  else if r.ret = 0 then ⟨r.ret, id0, result0, []⟩
  else if header_length L r.buffer > size_t_sub r.ret L.hsize then
    ⟨-1, id0, result0, []⟩
  else if header_version L r.buffer ≠ L.XPC_PROTOCOL_VERSION then
    ⟨-1, id0, result0, []⟩
  else
    let id := header_id L r.buffer
    let payload := frame_payload L r
    let result := xpc_unpack C payload
    if result.isNone then
      ⟨-1, id, result, [.store_id id, .unpack payload, .store_result result]⟩
    else
      ⟨r.ret, id, result,
        [.store_id id, .unpack payload, .store_result result, .free_buffer]⟩

/-- The comparison of line 415 is true: the frame is refused for its
length. -/
def length_refused (L : frame_decl) (r : xt_recv_result) : Prop :=
  header_length L r.buffer > size_t_sub r.ret L.hsize

/-- The comparison of line 420 is true: the frame is refused for its
version. -/
def version_refused (L : frame_decl) (r : xt_recv_result) : Prop :=
  header_version L r.buffer ≠ L.XPC_PROTOCOL_VERSION

instance (L : frame_decl) (r : xt_recv_result) : Decidable (length_refused L r) := by
  unfold length_refused; infer_instance

instance (L : frame_decl) (r : xt_recv_result) : Decidable (version_refused L r) := by
  unfold version_refused; infer_instance

/-! ## Sending (lines 367-387) -/

/-- The arguments of one call `transport->xt_send(local, remote, buf, size,
resources, nresources)`: the two ports, the `size` bytes at `buf`, the
resource pointer (`none` is the null pointer) and the resource count. -/
structure xt_send_call where
  local_port : Nat
  remote_port : Nat
  buf : List Byte
  size : Nat
  resources : Option Nat
  nresources : Nat
deriving DecidableEq, Repr

/-- The outcome of `xpc_pipe_send`: the value returned and the calls of
`xt_send` made, in order. -/
structure pipe_send_result where
  ret : Int
  sends : List xt_send_call
deriving DecidableEq, Repr

/-- The function `xpc_pipe_send` (lines 367-387). `xt_send` gives the value
the transport returns for a call. The result is `none` when the assertion
of line 374 fails (the object is not a dictionary) and the program
aborts. -/
def xpc_pipe_send {τ : Type} (L : frame_decl) (C : mpack_codec τ)
    (xt_send : xt_send_call → Int) (xobj : xpc_object) (id : Nat)
    (local_port remote_port : Nat) : Option pipe_send_result :=
  if xobj.xo_xpc_type ≠ xpc_type_tag._XPC_TYPE_DICTIONARY then none
  else
    let packed := xpc_pack L C xobj id
    if packed.ret ≠ 0 then some ⟨-1, []⟩
    else
      let call : xt_send_call :=
        ⟨local_port, remote_port, packed.buf.getD [], packed.size.getD 0, none, 0⟩
      if xt_send call ≠ 0 then some ⟨-1, [call]⟩
      else some ⟨0, [call]⟩

/-! ## Description (lines 197-286) -/

/-- The contents of a `struct sbuf`: the characters printed so far. -/
abbrev sbuf := List Char

/-- What the description printer calls outside this file and outside the
object model: `_xpc_get_type_name`, which names the type of an object (by
its tag), and `uuid_to_string` of the C library. -/
structure description_env where
  _xpc_get_type_name : xpc_type_tag → String
  uuid_to_string : List Byte → String

/-- The conversion `%*s` of `printf` with a non-negative width: the string,
preceded by as many spaces as it is shorter than the width. -/
def printf_pad_s (width : Nat) (s : List Char) : List Char :=
  List.replicate (width - s.length) ' ' ++ s

/-- The conversion `%ld`: a `long` in decimal, with a minus sign when
negative. -/
def printf_ld (v : Int) : List Char :=
  if v < 0 then '-' :: Nat.toDigits 10 v.natAbs else Nat.toDigits 10 v.toNat

/-- The conversion `%lu`: an `unsigned long` in decimal. -/
def printf_lu (v : Nat) : List Char := Nat.toDigits 10 (v % SIZE_MOD)

/-- The conversion `%lx`: an `unsigned long` in hexadecimal, digits `a` to
`f` in lower case, no `0x`. -/
def printf_lx (v : Nat) : List Char := Nat.toDigits 16 (v % SIZE_MOD)

/-- A `size_t` read as a `long`, which is what `%ld` does with the index of
line 240. -/
def long_of_size_t (n : Nat) : Int :=
  if n % SIZE_MOD < 2 ^ 63 then ((n % SIZE_MOD : Nat) : Int)
  else ((n % SIZE_MOD : Nat) : Int) - (SIZE_MOD : Int)

/-- The text printed by the cases of the `switch` of line 227 for an object
that is neither a dictionary nor an array (lines 246-284). The tags double,
data, file descriptor, error and invalid have no case: nothing is
printed. -/
def scalar_text (E : description_env) : xpc_scalar → List Char
  | .bool b => (if b then "true" else "false").toList ++ "\n".toList
  | .string s => "\"".toList ++ s.toList ++ "\"\n".toList
  | .int64 i => printf_ld i ++ "\n".toList
  | .uint64 ui => printf_lx ui ++ "\n".toList
  | .date ui => printf_lu ui ++ "\n".toList
  | .uuid bytes => (E.uuid_to_string bytes).toList ++ "\n".toList
  | .endpoint port => "<".toList ++ printf_ld port ++ ">\n".toList
  | .null => "<null>\n".toList
  | .double _ => []
  | .data _ => []
  | .fd _ => []
  | .error _ => []
  | .invalid => []

mutual
/-- The function `xpc_copy_description_level` from line 225 on, that is, for
an object that is not the null pointer: `sb` is the buffer before the call,
the result the buffer after it. -/
def description_body (E : description_env) : xpc_object → sbuf → Nat → sbuf
  | .dictionary _ _ ps, sb, level =>
    dictionary_apply_block E ps
      (sb ++ "(".toList ++
        (E._xpc_get_type_name xpc_type_tag._XPC_TYPE_DICTIONARY).toList ++ ") ".toList ++
        "\n".toList)
      level
  | .array _ _ es, sb, level =>
    array_apply_block E es 0
      (sb ++ "(".toList ++
        (E._xpc_get_type_name xpc_type_tag._XPC_TYPE_ARRAY).toList ++ ") ".toList ++
        "\n".toList)
      level
  | .scalar a r v, sb, _ =>
    sb ++ "(".toList ++
      (E._xpc_get_type_name (xpc_object.scalar a r v).xo_xpc_type).toList ++ ") ".toList ++
      scalar_text E v
/-- Modelled from the spec: `xpc_dictionary_apply` (not in this file) calls
the block on every entry in iteration order and goes on while the block
returns true. Here it is run with the block of lines 230-234, which prints
the indentation, the quoted key, a colon and a space, describes the value
one level deeper and returns true. -/
def dictionary_apply_block (E : description_env) :
    List (Nat × String × xpc_object) → sbuf → Nat → sbuf
  | [], sb, _ => sb
  | (_, k, v) :: rest, sb, level =>
    dictionary_apply_block E rest
      (description_body E v
        (sb ++ printf_pad_s (level * 4) " ".toList ++ "\"".toList ++ k.toList ++
          "\": ".toList)
        (level + 1))
      level
/-- Modelled from the spec: `xpc_array_apply` (not in this file) calls the
block on every element in order with its zero-based index and goes on while
the block returns true. Here it is run, from index `idx` on, with the block
of lines 239-243, which prints the indentation, the index with `%ld`, a
colon and a space, describes the element one level deeper and returns
true. -/
def array_apply_block (E : description_env) :
    List xpc_object → Nat → sbuf → Nat → sbuf
  | [], _, sb, _ => sb
  | v :: rest, idx, sb, level =>
    array_apply_block E rest (idx + 1)
      (description_body E v
        (sb ++ printf_pad_s (level * 4) " ".toList ++ printf_ld (long_of_size_t idx) ++
          ": ".toList)
        (level + 1))
      level
end

/-- The function `xpc_copy_description_level` (lines 212-286): the null
pointer (`none`) prints a fixed text, any other object is described from
line 225 on. -/
def xpc_copy_description_level (E : description_env) (obj : Option xpc_object)
    (sb : sbuf) (level : Nat) : sbuf :=
  match obj with
  | none => sb ++ "<null value>\n".toList
  | some xo => description_body E xo sb level

/-- The function `xpc_copy_description` (lines 197-210): a fresh buffer,
the description at level 0, and the text of the buffer as result. -/
def xpc_copy_description (E : description_env) (obj : Option xpc_object) : String :=
  String.mk (xpc_copy_description_level E obj [] 0)

/-- The text of one entry of a dictionary described at level `level`, as
the specification words it: the indentation, the key in double quotes, a
colon and a space, the description of the value one level deeper. -/
def entry_text (E : description_env) (indent : List Char) (level : Nat)
    (p : Nat × String × xpc_object) : List Char :=
  indent ++ "\"".toList ++ p.2.1.toList ++ "\": ".toList ++
    description_body E p.2.2 [] (level + 1)

/-- The text of one element of an array described at level `level`: the
indentation, the index in decimal, a colon and a space, the description of
the element one level deeper. -/
def element_text (E : description_env) (indent : List Char) (level : Nat)
    (iv : Nat × xpc_object) : List Char :=
  indent ++ Nat.toDigits 10 iv.1 ++ ": ".toList ++ description_body E iv.2 [] (level + 1)

/-- The text the block of lines 239-243 prints for one element of an array:
as `element_text`, with the index printed by `%ld`. -/
def printed_element_text (E : description_env) (indent : List Char) (level : Nat)
    (iv : Nat × xpc_object) : List Char :=
  indent ++ printf_ld (long_of_size_t iv.1) ++ ": ".toList ++
    description_body E iv.2 [] (level + 1)

/-- The text that follows the first occurrence of `pat` in a text, if
there is one. -/
def text_after (pat : List Char) : List Char → Option (List Char)
  | [] => if pat = [] then some [] else none
  | c :: cs =>
    if pat.isPrefixOf (c :: cs) then some ((c :: cs).drop pat.length)
    else text_after pat cs

/-- The given pieces occur in the text one after the other, in this
order. -/
def occur_in_order : List (List Char) → List Char → Bool
  | [], _ => true
  | p :: ps, t =>
    match text_after p t with
    | some rest => occur_in_order ps rest
    | none => false

/-! ## Notions used to state the properties of framing -/

/-- Offset `i` lies in one of the three named fields of the header. -/
def in_named_field (L : frame_decl) (i : Nat) : Prop :=
  (L.off_length ≤ i ∧ i < L.off_length + 8) ∨ (L.off_id ≤ i ∧ i < L.off_id + 8) ∨
  (L.off_version ≤ i ∧ i < L.off_version + L.version_width)

/-- The buffer that `xpc_pack` builds (lines 113-121) from the id and the
packed bytes. -/
def frame_of (L : frame_decl) (id : Nat) (packed : List Byte) : List Byte :=
  memcpy
    (store_le
      (store_le
        (store_le (memset_zero ((packed.length + L.hsize) % SIZE_MOD)) L.off_length
          packed.length 8)
        L.off_id id 8)
      L.off_version L.XPC_PROTOCOL_VERSION L.version_width)
    L.hsize packed

mutual
/-- The object with every address and every reference count set to zero:
what is left is the tags, the keys and their order, the order of array
elements and the scalar values. -/
def xpc_object.shape : xpc_object → xpc_object
  | .dictionary _ _ ps => .dictionary 0 0 (shape_pairs ps)
  | .array _ _ es => .array 0 0 (shape_elems es)
  | .scalar _ _ v => .scalar 0 0 v
/-- The entries of a dictionary with addresses and counts set to zero. -/
def shape_pairs : List (Nat × String × xpc_object) → List (Nat × String × xpc_object)
  | [] => []
  | (_, k, v) :: rest => (0, k, v.shape) :: shape_pairs rest
/-- The elements of an array with addresses and counts set to zero. -/
def shape_elems : List xpc_object → List xpc_object
  | [] => []
  | v :: rest => v.shape :: shape_elems rest
end

/-- Structural equality of two objects: same tags, same keys in the same
order, same elements in the same order, same scalar values. -/
def same_value (a b : xpc_object) : Prop := a.shape = b.shape

/-! ## Notions used to state the properties of the object model -/

mutual
/-- The addresses of the nodes of a tree: the object itself and all its
descendants. -/
def object_addrs : xpc_object → List Nat
  | .dictionary a _ ps => a :: object_addrs_pairs ps
  | .array a _ es => a :: object_addrs_elems es
  | .scalar a _ _ => [a]
/-- The addresses of the nodes below the entries of a dictionary. -/
def object_addrs_pairs : List (Nat × String × xpc_object) → List Nat
  | [] => []
  | (_, _, v) :: rest => object_addrs v ++ object_addrs_pairs rest
/-- The addresses of the nodes below the elements of an array. -/
def object_addrs_elems : List xpc_object → List Nat
  | [] => []
  | v :: rest => object_addrs v ++ object_addrs_elems rest
end

mutual
/-- The addresses of the `struct xpc_dict_pair` records of a tree, those of
nested dictionaries included. -/
def pair_addrs : xpc_object → List Nat
  | .dictionary _ _ ps => pair_addrs_pairs ps
  | .array _ _ es => pair_addrs_elems es
  | .scalar _ _ _ => []
/-- The pair records of a queue of entries and of the trees below them. -/
def pair_addrs_pairs : List (Nat × String × xpc_object) → List Nat
  | [] => []
  | (p, _, v) :: rest => p :: (pair_addrs v ++ pair_addrs_pairs rest)
/-- The pair records of the trees below the elements of an array. -/
def pair_addrs_elems : List xpc_object → List Nat
  | [] => []
  | v :: rest => pair_addrs v ++ pair_addrs_elems rest
end

mutual
/-- The number of nodes of a tree. -/
def node_count : xpc_object → Nat
  | .dictionary _ _ ps => 1 + node_count_pairs ps
  | .array _ _ es => 1 + node_count_elems es
  | .scalar _ _ _ => 1
/-- The number of nodes below the entries of a dictionary. -/
def node_count_pairs : List (Nat × String × xpc_object) → Nat
  | [] => 0
  | (_, _, v) :: rest => node_count v + node_count_pairs rest
/-- The number of nodes below the elements of an array. -/
def node_count_elems : List xpc_object → Nat
  | [] => 0
  | v :: rest => node_count v + node_count_elems rest
end

/-- The addresses of the objects freed by a sequence of calls, in order. -/
def freed_objects : List heap_event → List Nat
  | [] => []
  | .free_object a :: t => a :: freed_objects t
  | .free_pair _ :: t => freed_objects t

/-- The addresses of the pair records freed by a sequence of calls, in
order. -/
def freed_pairs : List heap_event → List Nat
  | [] => []
  | .free_object _ :: t => freed_pairs t
  | .free_pair a :: t => a :: freed_pairs t

/-- The children of a container: the values of a dictionary, the elements
of an array. -/
def xpc_object.children : xpc_object → List xpc_object
  | .dictionary _ _ ps => ps.map (fun p => p.2.2)
  | .array _ _ es => es
  | .scalar _ _ _ => []

/-- The largest number of references outstanding at any point of a sequence
of calls: `held` is the number of retains not yet released before the
sequence, each retain adds one and each release takes one away. -/
def max_held (held : Nat) : List rc_call → Nat
  | [] => held
  | .retain :: cs => max held (max_held (held + 1) cs)
  | .release :: cs => max held (max_held (held - 1) cs)

/-- The sequence of `k` pairs retain, release. -/
def retain_release_pairs : Nat → List rc_call
  | 0 => []
  | k + 1 => rc_call.retain :: rc_call.release :: retain_release_pairs k

/-- The sequence of `n` retains followed by `n` releases. -/
def retains_then_releases (n : Nat) : List rc_call :=
  List.replicate n rc_call.retain ++ List.replicate n rc_call.release

/-! ## A small codec and concrete inputs

The mpack library is external. For concrete inputs the following codec
stands in for it: it writes and reads the MessagePack encoding of
dictionaries and arrays of fewer than 16 entries, keys shorter than 32
bytes, null, booleans and integers from 0 to 127. -/

/-- The bytes of a key, one per character. -/
def key_bytes (s : String) : List Byte := s.toList.map (fun c => low_byte c.toNat)

/-- The key spelled by a list of bytes. -/
def key_of_bytes (bs : List Byte) : String := String.mk (bs.map (fun b => Char.ofNat b.val))

mutual
/-- MessagePack writer of the small codec; `none` is an encoding error. -/
def sample_write : xpc_object → Option (List Byte)
  | .dictionary _ _ ps =>
    match sample_write_pairs ps with
    | some bs => if ps.length < 16 then some (low_byte (0x80 + ps.length) :: bs) else none
    | none => none
  | .array _ _ es =>
    match sample_write_elems es with
    | some bs => if es.length < 16 then some (low_byte (0x90 + es.length) :: bs) else none
    | none => none
  | .scalar _ _ .null => some [0xc0]
  | .scalar _ _ (.bool b) => some [if b then 0xc3 else 0xc2]
  | .scalar _ _ (.int64 i) => if 0 ≤ i ∧ i < 128 then some [low_byte i.toNat] else none
  | .scalar _ _ _ => none
/-- Writer of the entries of a dictionary: key, then value. -/
def sample_write_pairs : List (Nat × String × xpc_object) → Option (List Byte)
  | [] => some []
  | (_, k, v) :: rest =>
    match sample_write v, sample_write_pairs rest with
    | some bv, some br =>
      if k.length < 32 then some (low_byte (0xa0 + k.length) :: key_bytes k ++ bv ++ br)
      else none
    | _, _ => none
/-- Writer of the elements of an array. -/
def sample_write_elems : List xpc_object → Option (List Byte)
  | [] => some []
  | v :: rest =>
    match sample_write v, sample_write_elems rest with
    | some bv, some br => some (bv ++ br)
    | _, _ => none
end

mutual
/-- MessagePack reader of the small codec: reads one object and yields it
with the bytes left over. Objects it builds have count 1; their addresses
are left at 0. The first argument bounds the nesting depth. -/
def sample_read : Nat → List Byte → Option (xpc_object × List Byte)
  | 0, _ => none
  | _ + 1, [] => none
  | fuel + 1, b :: bs =>
    if b.val < 0x80 then some (.scalar 0 1 (.int64 b.val), bs)
    else if b.val < 0x90 then
      match sample_read_pairs fuel (b.val - 0x80) bs with
      | some (ps, rest) => some (.dictionary 0 1 ps, rest)
      | none => none
    else if b.val < 0xa0 then
      match sample_read_elems fuel (b.val - 0x90) bs with
      | some (es, rest) => some (.array 0 1 es, rest)
      | none => none
    else if b.val = 0xc0 then some (.scalar 0 1 .null, bs)
    else if b.val = 0xc2 then some (.scalar 0 1 (.bool false), bs)
    else if b.val = 0xc3 then some (.scalar 0 1 (.bool true), bs)
    else none
/-- Reader of `n` dictionary entries. -/
def sample_read_pairs : Nat → Nat → List Byte →
    Option (List (Nat × String × xpc_object) × List Byte)
  | 0, _, _ => none
  | _ + 1, 0, bs => some ([], bs)
  | _ + 1, _ + 1, [] => none
  | fuel + 1, n + 1, k :: bs =>
    if 0xa0 ≤ k.val ∧ k.val < 0xc0 ∧ k.val - 0xa0 ≤ bs.length then
      match sample_read fuel (bs.drop (k.val - 0xa0)) with
      | some (v, rest) =>
        match sample_read_pairs fuel n rest with
        | some (ps, rest2) => some ((0, key_of_bytes (bs.take (k.val - 0xa0)), v) :: ps, rest2)
        | none => none
      | none => none
    else none
/-- Reader of `n` array elements. -/
def sample_read_elems : Nat → Nat → List Byte → Option (List xpc_object × List Byte)
  | 0, _, _ => none
  | _ + 1, 0, bs => some ([], bs)
  | fuel + 1, n + 1, bs =>
    match sample_read fuel bs with
    | some (v, rest) =>
      match sample_read_elems fuel n rest with
      | some (es, rest2) => some (v :: es, rest2)
      | none => none
    | none => none
end

/-- The small codec. A tree is the object read; parsing fails unless the
bytes hold exactly one object. -/
def sample_codec : mpack_codec xpc_object where
  xpc2mpack := sample_write
  mpack_tree_init := fun bs =>
    match sample_read (2 * bs.length + 2) bs with
    | some (xo, []) => some xo
    | _ => none
  mpack2xpc := fun xo => some xo

/-- The dictionary `{"count": int64 5, "flags": [true, false]}` of the
end-to-end scenario, every node with count 1, at addresses 1 to 5, its two
pair records at addresses 11 and 12. -/
def sample_dict : xpc_object :=
  .dictionary 1 1
    [(11, "count", .scalar 2 1 (.int64 5)),
     (12, "flags", .array 3 1 [.scalar 4 1 (.bool true), .scalar 5 1 (.bool false)])]

/-- A receive in which the transport delivered 8 bytes, the 64-bit number
100, into a buffer whose bytes 16 to 23 hold the number 1 and whose other
bytes are zero. -/
def short_read : xt_recv_result where
  ret := 8
  buffer := fun i => if i = 0 then 100 else if i = 16 then 1 else 0

/-- A receive of 25 bytes: a header with length 1, id 7 and version 2,
followed by the one-byte payload `0xc0` (MessagePack nil). -/
def wrong_version_read : xt_recv_result where
  ret := 25
  buffer := fun i =>
    if i = 0 then 1 else if i = 8 then 7 else if i = 16 then 2
    else if i = 24 then 0xc0 else 0

/-- The MessagePack encoding of `sample_dict`, 17 bytes. -/
def sample_payload : List Byte :=
  [0x82, 0xa5, 99, 111, 117, 110, 116, 5, 0xa5, 102, 108, 97, 103, 115, 0x92, 0xc3, 0xc2]

/-- The frame of `sample_dict` with id 42 under `spec_frame`: length 17,
id 42, version 1, then the payload; 41 bytes. -/
def sample_frame : List Byte :=
  [17, 0, 0, 0, 0, 0, 0, 0, 42, 0, 0, 0, 0, 0, 0, 0, 1, 0, 0, 0, 0, 0, 0, 0] ++ sample_payload

/-- A receive that delivers the 41 bytes of `sample_frame`; the rest of the
buffer holds the byte `0xaa`. -/
def sample_recv : xt_recv_result where
  ret := 41
  buffer := fun i => if i < 41 then mem_of sample_frame i else 0xaa

/-- The object the small codec builds from `sample_payload`. -/
def sample_decoded : xpc_object :=
  .dictionary 0 1
    [(0, "count", .scalar 0 1 (.int64 5)),
     (0, "flags", .array 0 1 [.scalar 0 1 (.bool true), .scalar 0 1 (.bool false)])]

/-- An array at address 1 whose single element, a boolean at address 2, has
count 2: the array holds one reference, another owner holds the second. -/
def array_with_retained_child : xpc_object :=
  .array 1 1 [.scalar 2 2 (.bool true)]

/-- A fresh null value at address 1, count 1. -/
def fresh_null : xpc_object := .scalar 1 1 .null

/-- A receive on which the transport reports the error value -2. -/
def failed_recv : xt_recv_result where
  ret := -2
  buffer := fun _ => 0

/-- A transport whose send always succeeds. -/
def send_ok : xt_send_call → Int := fun _ => 0

/-- A transport whose send always fails with the value 7. -/
def send_fails : xt_send_call → Int := fun _ => 7

/-- A receive of 25 bytes: a header with length 1, id 7 and version 1,
followed by the one-byte payload `0xc1`, which is not MessagePack. -/
def undecodable_read : xt_recv_result where
  ret := 25
  buffer := fun i =>
    if i = 0 then 1 else if i = 8 then 7 else if i = 16 then 1
    else if i = 24 then 0xc1 else 0

/-- Modelled from the spec: the names `_xpc_get_type_name` yields (its table
is not in this file), taken to be the tag names of section 3 of the
specification; and a stand-in for `uuid_to_string` that prints two
hexadecimal digits per byte. Used for concrete inputs only. -/
def spec_env : description_env where
  _xpc_get_type_name := fun t =>
    match t with
    | ._XPC_TYPE_INVALID => "invalid"
    | ._XPC_TYPE_DICTIONARY => "dictionary"
    | ._XPC_TYPE_ARRAY => "array"
    | ._XPC_TYPE_BOOL => "bool"
    | ._XPC_TYPE_ENDPOINT => "endpoint"
    | ._XPC_TYPE_NULL => "null"
    | ._XPC_TYPE_INT64 => "int64"
    | ._XPC_TYPE_UINT64 => "uint64"
    | ._XPC_TYPE_DATE => "date"
    | ._XPC_TYPE_DATA => "data"
    | ._XPC_TYPE_STRING => "string"
    | ._XPC_TYPE_UUID => "uuid"
    | ._XPC_TYPE_FD => "file-descriptor"
    | ._XPC_TYPE_ERROR => "error"
    | ._XPC_TYPE_DOUBLE => "double"
  uuid_to_string := fun bytes =>
    String.mk (bytes.flatMap (fun b => [Nat.digitChar (b.val / 16), Nat.digitChar (b.val % 16)]))

/-- A double at address 1 with count 1; its 64 bits are those of 1.5. -/
def sample_double : xpc_object := .scalar 1 1 (.double 0x3ff8000000000000)

/-- A dictionary with two entries: a double under the key `ratio`, then the
int64 7 under the key `n`. -/
def dict_with_double : xpc_object :=
  .dictionary 1 1
    [(11, "ratio", .scalar 2 1 (.double 0x3ff8000000000000)),
     (12, "n", .scalar 3 1 (.int64 7))]

/-- A receive in which the transport delivered 8 bytes, the 64-bit number 1,
into a buffer that still holds the rest of an earlier 25-byte frame: id 7,
version 1 and the one-byte payload `0xc0` (MessagePack nil). -/
def short_read_decodable : xt_recv_result where
  ret := 8
  buffer := fun i =>
    if i = 0 then 1 else if i = 8 then 7 else if i = 16 then 1
    else if i = 24 then 0xc0 else 0

/-! # Theorems -/

/-! ## Receiving: the paths of `xpc_pipe_receive` -/

theorem pipe_receive_of_neg {τ : Type} (L : frame_decl) (C : mpack_codec τ)
    (r : xt_recv_result) (id0 : Nat) (result0 : Option xpc_object) (h : r.ret < 0) :
    xpc_pipe_receive L C r id0 result0 = ⟨-1, id0, result0, []⟩ := by
  simp [xpc_pipe_receive, h]

theorem pipe_receive_of_zero {τ : Type} (L : frame_decl) (C : mpack_codec τ)
    (r : xt_recv_result) (id0 : Nat) (result0 : Option xpc_object) (h : r.ret = 0) :
    xpc_pipe_receive L C r id0 result0 = ⟨0, id0, result0, []⟩ := by
  simp [xpc_pipe_receive, h]

theorem pipe_receive_of_length_refused {τ : Type} (L : frame_decl) (C : mpack_codec τ)
    (r : xt_recv_result) (id0 : Nat) (result0 : Option xpc_object) (hpos : 0 < r.ret)
    (h : length_refused L r) :
    xpc_pipe_receive L C r id0 result0 = ⟨-1, id0, result0, []⟩ := by
  have h1 : ¬ r.ret < 0 := by omega
  have h2 : ¬ r.ret = 0 := by omega
  unfold length_refused at h
  simp [xpc_pipe_receive, h1, h2, h]

theorem pipe_receive_of_version_refused {τ : Type} (L : frame_decl) (C : mpack_codec τ)
    (r : xt_recv_result) (id0 : Nat) (result0 : Option xpc_object) (hpos : 0 < r.ret)
    (h : version_refused L r) :
    xpc_pipe_receive L C r id0 result0 = ⟨-1, id0, result0, []⟩ := by
  have h1 : ¬ r.ret < 0 := by omega
  have h2 : ¬ r.ret = 0 := by omega
  unfold version_refused at h
  by_cases h3 : header_length L r.buffer > size_t_sub r.ret L.hsize
  · simp [xpc_pipe_receive, h1, h2, h3]
  · simp [xpc_pipe_receive, h1, h2, h3, h]

theorem pipe_receive_of_accepted {τ : Type} (L : frame_decl) (C : mpack_codec τ)
    (r : xt_recv_result) (id0 : Nat) (result0 : Option xpc_object) (hpos : 0 < r.ret)
    (hl : ¬ length_refused L r) (hv : ¬ version_refused L r) :
    xpc_pipe_receive L C r id0 result0 =
      ⟨if (xpc_unpack C (frame_payload L r)).isSome then r.ret else -1,
        header_id L r.buffer, xpc_unpack C (frame_payload L r),
        recv_event.store_id (header_id L r.buffer) :: recv_event.unpack (frame_payload L r) ::
          recv_event.store_result (xpc_unpack C (frame_payload L r)) ::
          (if (xpc_unpack C (frame_payload L r)).isSome then [recv_event.free_buffer] else [])⟩ := by
  have h1 : ¬ r.ret < 0 := by omega
  have h2 : ¬ r.ret = 0 := by omega
  unfold length_refused at hl
  unfold version_refused at hv
  simp only [xpc_pipe_receive, h1, h2, hl, hv, if_false]
  rcases hx : xpc_unpack C (frame_payload L r) with _ | xo <;> simp

theorem size_t_sub_of_le (ret : Int) (hsize : Nat) (h : (hsize : Int) ≤ ret) :
    ((size_t_sub ret hsize : Nat) : Int) ≤ ret - hsize := by
  unfold size_t_sub SIZE_MOD
  have hm : (((2 ^ 64 : Nat) : Int)) = 18446744073709551616 := by norm_num
  rw [hm]
  omega

/-- The length check does what the specification asks whenever a whole
header was received: with `ret` at least the header size, a header whose
`length` exceeds `ret` minus the header size is refused. -/
theorem length_refused_of_full_header (L : frame_decl) (r : xt_recv_result)
    (hfull : (L.hsize : Int) ≤ r.ret)
    (hlen : r.ret < ((header_length L r.buffer + L.hsize : Nat) : Int)) :
    length_refused L r := by
  unfold length_refused
  have := size_t_sub_of_le r.ret L.hsize hfull
  push_cast at hlen
  omega

/-- On a read shorter than the header the length check lets through every
`length` up to `2 ^ 64 - (H - ret)`, whatever the declaration of the header:
`ret - sizeof(*header)` wraps around. -/
theorem length_not_refused_of_short_read (L : frame_decl) (r : xt_recv_result)
    (hpos : 0 < r.ret) (hshort : r.ret < (L.hsize : Int)) (hsize : L.hsize < SIZE_MOD)
    (hlen : (header_length L r.buffer : Int) + (L.hsize - r.ret) ≤ (SIZE_MOD : Int)) :
    ¬ length_refused L r := by
  unfold length_refused size_t_sub
  unfold SIZE_MOD at *
  have hm : (((2 ^ 64 : Nat) : Int)) = 18446744073709551616 := by norm_num
  have hs2 : L.hsize < 18446744073709551616 := by
    have : (2 : Nat) ^ 64 = 18446744073709551616 := by norm_num
    omega
  rw [hm] at hlen ⊢
  omega

/-- C1 (the code at the failing input): the transport returns 8, fewer
bytes than the 24 of the header; the buffer holds `length = 100` and
`version = 1`. The header announces more payload than was received
(`100 + 24 > 8`), yet the comparison of line 415 is false, because
`8 - 24` is taken modulo `2 ^ 64`; `*id` is written and `xpc_unpack` is
called with 100 bytes, none of which was received; the call returns 8 when
the decoder accepts them. -/
theorem short_read_reaches_decoder {τ : Type} (C : mpack_codec τ) (id0 : Nat)
    (result0 : Option xpc_object) :
    0 < short_read.ret ∧ short_read.ret < (spec_frame.hsize : Int) ∧
    short_read.ret <
      ((header_length spec_frame short_read.buffer + spec_frame.hsize : Nat) : Int) ∧
    size_t_sub short_read.ret spec_frame.hsize = 2 ^ 64 - 16 ∧
    ¬ length_refused spec_frame short_read ∧
    (xpc_pipe_receive spec_frame C short_read id0 result0).events.take 2 =
      [recv_event.store_id 0, recv_event.unpack (slice short_read.buffer 24 100)] ∧
    (xpc_pipe_receive spec_frame C short_read id0 result0).ret =
      if (xpc_unpack C (slice short_read.buffer 24 100)).isSome then 8 else -1 := by
  have hl : ¬ length_refused spec_frame short_read := by decide
  have hv : ¬ version_refused spec_frame short_read := by decide
  have hpos : 0 < short_read.ret := by decide
  have hp : frame_payload spec_frame short_read = slice short_read.buffer 24 100 := by
    have h100 : header_length spec_frame short_read.buffer = 100 := by decide
    unfold frame_payload
    rw [h100]
    rfl
  have hid : header_id spec_frame short_read.buffer = 0 := by decide
  rw [pipe_receive_of_accepted spec_frame C short_read id0 result0 hpos hl hv, hp, hid]
  exact ⟨hpos, by decide, by decide, by decide, hl, rfl, rfl⟩

/-- C2: whenever the transport returns a positive count and the version
field of the header differs from `XPC_PROTOCOL_VERSION`, `xpc_pipe_receive`
returns -1, whatever the payload bytes and whatever the decoder would do
with them; it makes no call of `xpc_unpack` and no store through `id` or
`result` (the event list is empty), and `*id` and `*result` hold what they
held before. -/
theorem version_mismatch_rejected {τ : Type} (L : frame_decl) (C : mpack_codec τ)
    (r : xt_recv_result) (id0 : Nat) (result0 : Option xpc_object)
    (hpos : 0 < r.ret) (hver : header_version L r.buffer ≠ L.XPC_PROTOCOL_VERSION) :
    (xpc_pipe_receive L C r id0 result0).ret = -1 ∧
    (xpc_pipe_receive L C r id0 result0).events = [] ∧
    (xpc_pipe_receive L C r id0 result0).id = id0 ∧
    (xpc_pipe_receive L C r id0 result0).result = result0 := by
  rw [pipe_receive_of_version_refused L C r id0 result0 hpos hver]
  exact ⟨rfl, rfl, rfl, rfl⟩

/-- C2 at a concrete input: a 25-byte frame with version 2 whose length is
in order and whose payload the small codec decodes; the call returns -1 and
leaves `*id = 99` alone. -/
theorem version_mismatch_rejected_witness :
    (0 < wrong_version_read.ret ∧
      header_version spec_frame wrong_version_read.buffer ≠ spec_frame.XPC_PROTOCOL_VERSION ∧
      ¬ length_refused spec_frame wrong_version_read ∧
      (xpc_unpack sample_codec (frame_payload spec_frame wrong_version_read)).isSome = true) ∧
    ((xpc_pipe_receive spec_frame sample_codec wrong_version_read 99 none).ret = -1 ∧
      (xpc_pipe_receive spec_frame sample_codec wrong_version_read 99 none).events = [] ∧
      (xpc_pipe_receive spec_frame sample_codec wrong_version_read 99 none).id = 99 ∧
      (xpc_pipe_receive spec_frame sample_codec wrong_version_read 99 none).result = none) :=
  ⟨⟨by decide, by decide, by decide, by rfl⟩,
    version_mismatch_rejected spec_frame sample_codec wrong_version_read 99 none
      (by decide) (by decide)⟩

/-! ## Bytes: loads, stores, copies -/

theorem length_store_le (buf : List Byte) (off v w : Nat) :
    (store_le buf off v w).length = buf.length := by
  induction w generalizing buf off v with
  | zero => rfl
  | succ w ih => simp [store_le, ih]

theorem length_memcpy (dst : List Byte) (off : Nat) (src : List Byte) :
    (memcpy dst off src).length = dst.length := by
  induction src generalizing dst off with
  | nil => rfl
  | cons b src ih => simp [memcpy, ih]

theorem getElem?_store_le (buf : List Byte) (off v w i : Nat) :
    (store_le buf off v w)[i]? =
      if off ≤ i ∧ i < off + w ∧ i < buf.length then some (low_byte (v / 256 ^ (i - off)))
      else buf[i]? := by
  induction w generalizing buf off v with
  | zero =>
    have : ¬ (off ≤ i ∧ i < off + 0 ∧ i < buf.length) := by omega
    rw [store_le, if_neg this]
  | succ w ih =>
    rw [store_le, ih]
    by_cases h1 : off + 1 ≤ i ∧ i < off + 1 + w ∧ i < (buf.set off (low_byte v)).length
    · rw [if_pos h1]
      have h2 : off ≤ i ∧ i < off + (w + 1) ∧ i < buf.length := by
        rw [List.length_set] at h1; omega
      rw [if_pos h2]
      have h3 : i - off = (i - (off + 1)) + 1 := by omega
      rw [h3, pow_succ, Nat.mul_comm, Nat.div_div_eq_div_mul]
    · rw [if_neg h1]
      rw [List.length_set] at h1
      by_cases h4 : i = off
      · subst h4
        by_cases h5 : i < buf.length
        · have h2 : i ≤ i ∧ i < i + (w + 1) ∧ i < buf.length := by omega
          rw [if_pos h2]
          simp [h5]
        · have h2 : ¬ (i ≤ i ∧ i < i + (w + 1) ∧ i < buf.length) := by omega
          rw [if_neg h2, List.getElem?_eq_none (by simp; omega),
            List.getElem?_eq_none (by omega)]
      · have h2 : ¬ (off ≤ i ∧ i < off + (w + 1) ∧ i < buf.length) := by omega
        rw [if_neg h2, List.getElem?_set_ne (Ne.symm h4)]

theorem getElem?_memcpy (dst : List Byte) (off : Nat) (src : List Byte) (i : Nat) :
    (memcpy dst off src)[i]? =
      if off ≤ i ∧ i < off + src.length ∧ i < dst.length then src[i - off]? else dst[i]? := by
  induction src generalizing dst off with
  | nil =>
    have : ¬ (off ≤ i ∧ i < off + ([] : List Byte).length ∧ i < dst.length) := by
      simp only [List.length_nil]; omega
    rw [memcpy, if_neg this]
  | cons b src ih =>
    rw [memcpy, ih]
    by_cases h1 : off + 1 ≤ i ∧ i < off + 1 + src.length ∧ i < (dst.set off b).length
    · rw [if_pos h1]
      rw [List.length_set] at h1
      have h2 : off ≤ i ∧ i < off + (b :: src).length ∧ i < dst.length := by
        simp only [List.length_cons]; omega
      rw [if_pos h2]
      have h3 : i - off = (i - (off + 1)) + 1 := by omega
      rw [h3, List.getElem?_cons_succ]
    · rw [if_neg h1]
      rw [List.length_set] at h1
      by_cases h4 : i = off
      · subst h4
        by_cases h5 : i < dst.length
        · have h2 : i ≤ i ∧ i < i + (b :: src).length ∧ i < dst.length := by
            simp only [List.length_cons]; omega
          rw [if_pos h2]
          simp [h5]
        · have h2 : ¬ (i ≤ i ∧ i < i + (b :: src).length ∧ i < dst.length) := by omega
          rw [if_neg h2, List.getElem?_eq_none (by simp; omega),
            List.getElem?_eq_none (by omega)]
      · have h2 : ¬ (off ≤ i ∧ i < off + (b :: src).length ∧ i < dst.length) := by
          simp only [List.length_cons]; omega
        rw [if_neg h2, List.getElem?_set_ne (Ne.symm h4)]

theorem load_le_of_bytes (mem : Nat → Byte) (off v w : Nat)
    (h : ∀ k, k < w → mem (off + k) = low_byte (v / 256 ^ k)) :
    load_le mem off w = v % 256 ^ w := by
  induction w generalizing off v with
  | zero => simp [load_le, Nat.mod_one]
  | succ w ih =>
    have h0 : mem off = low_byte v := by simpa using h 0 (Nat.succ_pos w)
    have hrest : ∀ k, k < w → mem (off + 1 + k) = low_byte (v / 256 / 256 ^ k) := by
      intro k hk
      have := h (k + 1) (by omega)
      rw [Nat.div_div_eq_div_mul, ← pow_succ']
      rw [← this]
      congr 1
      omega
    rw [load_le, ih (off + 1) (v / 256) hrest, h0, pow_succ', Nat.mod_mul]
    rfl

theorem load_le_congr (m1 m2 : Nat → Byte) (off w : Nat)
    (h : ∀ k, k < w → m1 (off + k) = m2 (off + k)) :
    load_le m1 off w = load_le m2 off w := by
  induction w generalizing off with
  | zero => rfl
  | succ w ih =>
    have h0 : m1 off = m2 off := by simpa using h 0 (Nat.succ_pos w)
    have hrest : ∀ k, k < w → m1 (off + 1 + k) = m2 (off + 1 + k) := by
      intro k hk
      have := h (k + 1) (by omega)
      rw [show off + 1 + k = off + (k + 1) by omega]
      exact this
    rw [load_le, load_le, ih (off + 1) hrest, h0]

theorem load_le_lt (mem : Nat → Byte) (off w : Nat) : load_le mem off w < 256 ^ w := by
  induction w generalizing off with
  | zero => simp [load_le]
  | succ w ih =>
    have h1 := ih (off + 1)
    have h2 := (mem off).isLt
    rw [load_le, pow_succ]
    omega

/-! ## Framing: the buffer built by `xpc_pack` -/

theorem xpc_pack_eq {τ : Type} (L : frame_decl) (C : mpack_codec τ) (xo : xpc_object)
    (id : Nat) :
    xpc_pack L C xo id =
      match C.xpc2mpack xo with
      | none => ⟨-1, none, none⟩
      | some packed =>
        ⟨0, some (frame_of L id packed), some ((packed.length + L.hsize) % SIZE_MOD)⟩ := by
  unfold xpc_pack frame_of
  cases C.xpc2mpack xo <;> rfl

theorem length_frame_of (L : frame_decl) (id : Nat) (p : List Byte)
    (hfit : p.length + L.hsize < SIZE_MOD) :
    (frame_of L id p).length = p.length + L.hsize := by
  unfold frame_of
  rw [length_memcpy, length_store_le, length_store_le, length_store_le, memset_zero,
    List.length_replicate, Nat.mod_eq_of_lt hfit]

theorem getElem?_frame_of (L : frame_decl) (id : Nat) (p : List Byte)
    (hfit : p.length + L.hsize < SIZE_MOD) (i : Nat) :
    (frame_of L id p)[i]? =
      if L.hsize ≤ i ∧ i < L.hsize + p.length then p[i - L.hsize]?
      else if L.off_version ≤ i ∧ i < L.off_version + L.version_width ∧ i < p.length + L.hsize
        then some (low_byte (L.XPC_PROTOCOL_VERSION / 256 ^ (i - L.off_version)))
      else if L.off_id ≤ i ∧ i < L.off_id + 8 ∧ i < p.length + L.hsize
        then some (low_byte (id / 256 ^ (i - L.off_id)))
      else if L.off_length ≤ i ∧ i < L.off_length + 8 ∧ i < p.length + L.hsize
        then some (low_byte (p.length / 256 ^ (i - L.off_length)))
      else if i < p.length + L.hsize then some 0 else none := by
  unfold frame_of
  rw [getElem?_memcpy, getElem?_store_le, getElem?_store_le, getElem?_store_le,
    length_store_le, length_store_le, length_store_le, memset_zero, List.length_replicate,
    Nat.mod_eq_of_lt hfit, List.getElem?_replicate]
  by_cases h1 : L.hsize ≤ i ∧ i < L.hsize + p.length
  · have h1' : L.hsize ≤ i ∧ i < L.hsize + p.length ∧ i < p.length + L.hsize := by omega
    rw [if_pos h1, if_pos h1']
  · have h1' : ¬ (L.hsize ≤ i ∧ i < L.hsize + p.length ∧ i < p.length + L.hsize) := by omega
    rw [if_neg h1, if_neg h1']

theorem mem_of_eq (buf : List Byte) (i : Nat) : mem_of buf i = (buf[i]?).getD 0 := by
  simp [mem_of]

theorem frame_of_length_field (L : frame_decl) (id : Nat) (p : List Byte) (hwf : L.wf)
    (hfit : p.length + L.hsize < SIZE_MOD) :
    header_length L (mem_of (frame_of L id p)) = p.length := by
  obtain ⟨h1, h2, h3, d1, d2, d3, w0, w8, hv, hs⟩ := hwf
  unfold ranges_disjoint at d1 d2 d3
  unfold header_length
  rw [load_le_of_bytes (mem_of (frame_of L id p)) L.off_length p.length 8]
  · apply Nat.mod_eq_of_lt
    unfold SIZE_MOD at hfit
    have : (256 : Nat) ^ 8 = 2 ^ 64 := by norm_num
    omega
  · intro k hk
    rw [mem_of_eq, getElem?_frame_of L id p hfit, if_neg (by omega), if_neg (by omega),
      if_neg (by omega), if_pos (by omega), Nat.add_sub_cancel_left]
    rfl

theorem frame_of_id_field (L : frame_decl) (id : Nat) (p : List Byte) (hwf : L.wf)
    (hfit : p.length + L.hsize < SIZE_MOD) (hid : id < SIZE_MOD) :
    header_id L (mem_of (frame_of L id p)) = id := by
  obtain ⟨h1, h2, h3, d1, d2, d3, w0, w8, hv, hs⟩ := hwf
  unfold ranges_disjoint at d1 d2 d3
  unfold header_id
  rw [load_le_of_bytes (mem_of (frame_of L id p)) L.off_id id 8]
  · apply Nat.mod_eq_of_lt
    unfold SIZE_MOD at hid
    have : (256 : Nat) ^ 8 = 2 ^ 64 := by norm_num
    omega
  · intro k hk
    rw [mem_of_eq, getElem?_frame_of L id p hfit, if_neg (by omega), if_neg (by omega),
      if_pos (by omega), Nat.add_sub_cancel_left]
    rfl

theorem frame_of_version_field (L : frame_decl) (id : Nat) (p : List Byte) (hwf : L.wf)
    (hfit : p.length + L.hsize < SIZE_MOD) :
    header_version L (mem_of (frame_of L id p)) = L.XPC_PROTOCOL_VERSION := by
  obtain ⟨h1, h2, h3, d1, d2, d3, w0, w8, hv, hs⟩ := hwf
  unfold ranges_disjoint at d1 d2 d3
  unfold header_version
  rw [load_le_of_bytes (mem_of (frame_of L id p)) L.off_version L.XPC_PROTOCOL_VERSION
    L.version_width]
  · exact Nat.mod_eq_of_lt hv
  · intro k hk
    rw [mem_of_eq, getElem?_frame_of L id p hfit, if_neg (by omega), if_pos (by omega),
      Nat.add_sub_cancel_left]
    rfl

theorem frame_of_spare_bytes (L : frame_decl) (id : Nat) (p : List Byte)
    (hfit : p.length + L.hsize < SIZE_MOD) (i : Nat) (hi : i < L.hsize)
    (hout : ¬ in_named_field L i) : (frame_of L id p)[i]? = some 0 := by
  unfold in_named_field at hout
  rw [getElem?_frame_of L id p hfit, if_neg (by omega), if_neg (by omega), if_neg (by omega),
    if_neg (by omega), if_pos (by omega)]

theorem frame_of_payload (L : frame_decl) (id : Nat) (p : List Byte)
    (hfit : p.length + L.hsize < SIZE_MOD) : (frame_of L id p).drop L.hsize = p := by
  apply List.ext_getElem?
  intro n
  rw [List.getElem?_drop, getElem?_frame_of L id p hfit]
  by_cases hn : n < p.length
  · rw [if_pos (by omega), Nat.add_sub_cancel_left]
  · rw [if_neg (by omega), if_neg (by omega), if_neg (by omega), if_neg (by omega),
      if_neg (by omega), List.getElem?_eq_none (by omega)]

/-- C4: when the encoder succeeds with a payload `p`, `xpc_pack` returns 0
and stores through `size` the number `|p| + H`; the buffer it stores through
`buf` has that many bytes; read back as a header, its `length` field is
`|p|`, its `id` field the caller's id and its `version` field
`XPC_PROTOCOL_VERSION`; every byte of the header outside these three fields
is zero; and the bytes from offset `H` on are exactly `p`, unchanged and in
order, with nothing in between and nothing after. -/
theorem xpc_pack_frame_layout {τ : Type} (L : frame_decl) (C : mpack_codec τ)
    (xo : xpc_object) (id : Nat) (p : List Byte) (hwf : L.wf)
    (henc : C.xpc2mpack xo = some p) (hfit : p.length + L.hsize < SIZE_MOD)
    (hid : id < SIZE_MOD) :
    ∃ buf : List Byte,
      xpc_pack L C xo id = ⟨0, some buf, some (p.length + L.hsize)⟩ ∧
      buf.length = p.length + L.hsize ∧
      header_length L (mem_of buf) = p.length ∧
      header_id L (mem_of buf) = id ∧
      header_version L (mem_of buf) = L.XPC_PROTOCOL_VERSION ∧
      (∀ i, i < L.hsize → ¬ in_named_field L i → buf[i]? = some 0) ∧
      buf.drop L.hsize = p ∧
      buf = buf.take L.hsize ++ p := by
  refine ⟨frame_of L id p, ?_, length_frame_of L id p hfit,
    frame_of_length_field L id p hwf hfit, frame_of_id_field L id p hwf hfit hid,
    frame_of_version_field L id p hwf hfit,
    fun i hi hout => frame_of_spare_bytes L id p hfit i hi hout,
    frame_of_payload L id p hfit, ?_⟩
  · rw [xpc_pack_eq, henc]
    simp only [Nat.mod_eq_of_lt hfit]
  · conv_lhs => rw [← List.take_append_drop L.hsize (frame_of L id p)]
    rw [frame_of_payload L id p hfit]

/-- C4 at a concrete input: `sample_dict` packed with id 42 under
`spec_frame` by the small codec. -/
theorem xpc_pack_frame_layout_witness :
    (spec_frame.wf ∧ sample_codec.xpc2mpack sample_dict = some sample_payload ∧
      sample_payload.length + spec_frame.hsize < SIZE_MOD ∧ 42 < SIZE_MOD) ∧
    ∃ buf : List Byte,
      xpc_pack spec_frame sample_codec sample_dict 42 =
        ⟨0, some buf, some (sample_payload.length + spec_frame.hsize)⟩ ∧
      buf.length = sample_payload.length + spec_frame.hsize ∧
      header_length spec_frame (mem_of buf) = sample_payload.length ∧
      header_id spec_frame (mem_of buf) = 42 ∧
      header_version spec_frame (mem_of buf) = spec_frame.XPC_PROTOCOL_VERSION ∧
      (∀ i, i < spec_frame.hsize → ¬ in_named_field spec_frame i → buf[i]? = some 0) ∧
      buf.drop spec_frame.hsize = sample_payload ∧
      buf = buf.take spec_frame.hsize ++ sample_payload :=
  ⟨⟨by decide, by decide, by decide, by decide⟩,
    xpc_pack_frame_layout spec_frame sample_codec sample_dict 42 sample_payload
      (by decide) (by decide) (by decide) (by decide)⟩

/-! ## Round trip: a packed frame through `xpc_pipe_receive` -/

theorem size_t_sub_add (n hsize : Nat) (hn : n < SIZE_MOD) :
    size_t_sub ((n + hsize : Nat) : Int) hsize = n := by
  unfold size_t_sub
  unfold SIZE_MOD at *
  have hm : (((2 ^ 64 : Nat) : Int)) = 18446744073709551616 := by norm_num
  have hn2 : n < 18446744073709551616 := by
    have : (2 : Nat) ^ 64 = 18446744073709551616 := by norm_num
    omega
  rw [hm]
  push_cast
  omega

theorem slice_eq_of_getElem? (mem : Nat → Byte) (off : Nat) (p : List Byte)
    (h : ∀ i, i < p.length → some (mem (off + i)) = p[i]?) :
    slice mem off p.length = p := by
  apply List.ext_getElem?
  intro n
  unfold slice
  rw [List.getElem?_map]
  by_cases hn : n < p.length
  · rw [List.getElem?_range hn, ← h n hn]
    rfl
  · rw [List.getElem?_eq_none (by simp; omega), List.getElem?_eq_none (by omega)]
    rfl

/-- What `xpc_pipe_receive` does with a frame built by `xpc_pack`, before
anything is assumed about the decoder: both header checks pass, the id
stored is the id packed, the bytes given to `xpc_unpack` are the packed
payload, and the value returned is the byte count when the decoder yields
an object and -1 when it does not. -/
theorem receive_of_packed_frame {τ : Type} (L : frame_decl) (C : mpack_codec τ)
    (id : Nat) (p : List Byte) (r : xt_recv_result) (id0 : Nat)
    (result0 : Option xpc_object) (hwf : L.wf) (hid : id < SIZE_MOD)
    (hfit : p.length + L.hsize < SIZE_MOD)
    (hret : r.ret = ((p.length + L.hsize : Nat) : Int))
    (hbytes : ∀ i, i < p.length + L.hsize → r.buffer i = mem_of (frame_of L id p) i) :
    ¬ length_refused L r ∧ ¬ version_refused L r ∧ header_length L r.buffer = p.length ∧
    frame_payload L r = p ∧
    xpc_pipe_receive L C r id0 result0 =
      ⟨if (xpc_unpack C p).isSome then ((p.length + L.hsize : Nat) : Int) else -1,
        id, xpc_unpack C p,
        recv_event.store_id id :: recv_event.unpack p ::
          recv_event.store_result (xpc_unpack C p) ::
          (if (xpc_unpack C p).isSome then [recv_event.free_buffer] else [])⟩ := by
  have hwf0 := hwf
  obtain ⟨h1, h2, h3, d1, d2, d3, w0, w8, hv, hs⟩ := hwf
  have hlen : header_length L r.buffer = p.length := by
    rw [← frame_of_length_field L id p hwf0 hfit]
    exact load_le_congr _ _ _ _ (fun k hk => hbytes _ (by omega))
  have hidf : header_id L r.buffer = id := by
    rw [← frame_of_id_field L id p hwf0 hfit hid]
    exact load_le_congr _ _ _ _ (fun k hk => hbytes _ (by omega))
  have hver : header_version L r.buffer = L.XPC_PROTOCOL_VERSION := by
    rw [← frame_of_version_field L id p hwf0 hfit]
    exact load_le_congr _ _ _ _ (fun k hk => hbytes _ (by omega))
  have hl : ¬ length_refused L r := by
    unfold length_refused
    rw [hlen, hret, size_t_sub_add p.length L.hsize (by omega)]
    omega
  have hvr : ¬ version_refused L r := by
    unfold version_refused
    rw [hver]
    simp
  have hpay : frame_payload L r = p := by
    unfold frame_payload
    rw [hlen]
    apply slice_eq_of_getElem?
    intro i hi
    have hp : p[i]? = (frame_of L id p)[L.hsize + i]? := by
      rw [← List.getElem?_drop, frame_of_payload L id p hfit]
    have hlt : L.hsize + i < (frame_of L id p).length := by
      rw [length_frame_of L id p hfit]; omega
    rw [hbytes _ (by omega), mem_of_eq, hp, List.getElem?_eq_getElem hlt]
    rfl
  have hpos : 0 < r.ret := by
    rw [hret]
    have : 0 < L.hsize := by omega
    omega
  refine ⟨hl, hvr, hlen, hpay, ?_⟩
  rw [pipe_receive_of_accepted L C r id0 result0 hpos hl hvr, hpay, hidf, hret]

/-- C3: let the encoder yield the payload `p` for the value `v` (of any tag,
dictionaries included), let `xpc_pack` return 0 with the buffer `buf` and
the total size `s`, at most `RECV_BUFFER_SIZE`, and let the transport
deliver exactly these `s` bytes (`ret = s`, the first `s` bytes of the
receive buffer equal to `buf`, the rest arbitrary). Let the decoder invert
the encoder at `v`: on `p` it yields an object `w` structurally equal to
`v`. Then `xpc_pipe_receive` passes both header checks, stores the packed id
through `id`, hands to `xpc_unpack` exactly `p` (`header->length` bytes read
right after the header), stores `w` through `result`, frees the buffer and
returns `s`. The sizes are those of buffers in memory: `|p| + H` is a
`size_t`. -/
theorem frame_round_trip {τ : Type} (L : frame_decl) (C : mpack_codec τ)
    (v w : xpc_object) (id : Nat) (p buf : List Byte) (s : Nat) (r : xt_recv_result)
    (id0 : Nat) (result0 : Option xpc_object) (hwf : L.wf) (hid : id < SIZE_MOD)
    (henc : C.xpc2mpack v = some p) (hfit : p.length + L.hsize < SIZE_MOD)
    (hpack : xpc_pack L C v id = ⟨0, some buf, some s⟩) (hs : s ≤ RECV_BUFFER_SIZE)
    (hret : r.ret = (s : Int)) (hbytes : ∀ i, i < s → r.buffer i = mem_of buf i)
    (hdec : xpc_unpack C p = some w) (hinv : same_value w v) :
    ¬ length_refused L r ∧ ¬ version_refused L r ∧
    header_length L r.buffer = p.length ∧ frame_payload L r = p ∧
    (xpc_pipe_receive L C r id0 result0).id = id ∧
    (xpc_pipe_receive L C r id0 result0).events =
      [recv_event.store_id id, recv_event.unpack p, recv_event.store_result (some w),
        recv_event.free_buffer] ∧
    (xpc_pipe_receive L C r id0 result0).ret = (s : Int) ∧
    (∃ w1, (xpc_pipe_receive L C r id0 result0).result = some w1 ∧ same_value w1 v) := by
  rw [xpc_pack_eq, henc] at hpack
  simp only [pack_result.mk.injEq, Option.some.injEq, true_and] at hpack
  obtain ⟨hbuf, hsz⟩ := hpack
  rw [Nat.mod_eq_of_lt hfit] at hsz
  subst hbuf hsz
  obtain ⟨hl, hv, hlen, hpay, hrun⟩ :=
    receive_of_packed_frame L C id p r id0 result0 hwf hid hfit hret hbytes
  rw [hrun, hdec]
  exact ⟨hl, hv, hlen, hpay, rfl, rfl, rfl, w, rfl, hinv⟩

/-- C3 at the input of the end-to-end scenario: the dictionary
`{"count": int64 5, "flags": [true, false]}` packed with id 42 and
received back, under `spec_frame` and the small codec. -/
theorem frame_round_trip_witness :
    (spec_frame.wf ∧ 42 < SIZE_MOD ∧
      sample_codec.xpc2mpack sample_dict = some sample_payload ∧
      sample_payload.length + spec_frame.hsize < SIZE_MOD ∧
      xpc_pack spec_frame sample_codec sample_dict 42 = ⟨0, some sample_frame, some 41⟩ ∧
      41 ≤ RECV_BUFFER_SIZE ∧ sample_recv.ret = (41 : Nat) ∧
      (∀ i, i < 41 → sample_recv.buffer i = mem_of sample_frame i) ∧
      xpc_unpack sample_codec sample_payload = some sample_decoded ∧
      same_value sample_decoded sample_dict) ∧
    (¬ length_refused spec_frame sample_recv ∧ ¬ version_refused spec_frame sample_recv ∧
      header_length spec_frame sample_recv.buffer = sample_payload.length ∧
      frame_payload spec_frame sample_recv = sample_payload ∧
      (xpc_pipe_receive spec_frame sample_codec sample_recv 0 none).id = 42 ∧
      (xpc_pipe_receive spec_frame sample_codec sample_recv 0 none).events =
        [recv_event.store_id 42, recv_event.unpack sample_payload,
          recv_event.store_result (some sample_decoded), recv_event.free_buffer] ∧
      (xpc_pipe_receive spec_frame sample_codec sample_recv 0 none).ret = (41 : Nat) ∧
      (∃ w1, (xpc_pipe_receive spec_frame sample_codec sample_recv 0 none).result = some w1 ∧
        same_value w1 sample_dict)) :=
  have hb : ∀ i, i < 41 → sample_recv.buffer i = mem_of sample_frame i :=
    fun i hi => by simp [sample_recv, hi]
  ⟨⟨by decide, by decide, by decide, by decide, by decide, by decide, by decide, hb,
      by rfl, by rfl⟩,
    frame_round_trip spec_frame sample_codec sample_dict sample_decoded 42 sample_payload
      sample_frame 41 sample_recv 0 none (by decide) (by decide) (by decide) (by decide)
      (by decide) (by decide) (by decide) hb (by rfl) (by rfl)⟩

/-! ## Receiving: the three outcomes -/

/-- The outcomes of `xpc_pipe_receive` in terms of the two comparisons the
code makes (lines 415 and 420): it returns 0 exactly when the transport
returned 0; it returns a positive value exactly when the transport returned
a positive count, neither comparison refused the frame and `xpc_unpack`
returned an object, and that value is then the transport's count; it
returns -1 exactly in the remaining cases. It returns nothing else. The
comparison of line 415 is not the length check of the specification on
reads shorter than the header. -/
theorem pipe_receive_outcomes {τ : Type} (L : frame_decl) (C : mpack_codec τ)
    (r : xt_recv_result) (id0 : Nat) (result0 : Option xpc_object) :
    ((xpc_pipe_receive L C r id0 result0).ret = 0 ↔ r.ret = 0) ∧
    (0 < (xpc_pipe_receive L C r id0 result0).ret ↔
      (0 < r.ret ∧ ¬ length_refused L r ∧ ¬ version_refused L r ∧
        (xpc_unpack C (frame_payload L r)).isSome = true)) ∧
    (0 < (xpc_pipe_receive L C r id0 result0).ret →
      (xpc_pipe_receive L C r id0 result0).ret = r.ret) ∧
    ((xpc_pipe_receive L C r id0 result0).ret = -1 ↔
      (r.ret < 0 ∨ (0 < r.ret ∧ (length_refused L r ∨ version_refused L r ∨
        (xpc_unpack C (frame_payload L r)).isSome = false)))) ∧
    ((xpc_pipe_receive L C r id0 result0).ret = 0 ∨
      (xpc_pipe_receive L C r id0 result0).ret = -1 ∨
      0 < (xpc_pipe_receive L C r id0 result0).ret) := by
  rcases lt_trichotomy r.ret 0 with hneg | hzero | hpos
  · rw [pipe_receive_of_neg L C r id0 result0 hneg]
    have h1 : ¬ r.ret = 0 := by omega
    have h2 : ¬ 0 < r.ret := by omega
    simp [hneg, h1, h2]
  · rw [pipe_receive_of_zero L C r id0 result0 hzero]
    simp [hzero]
  · have hne : ¬ r.ret = 0 := by omega
    have hnn : ¬ r.ret < 0 := by omega
    by_cases hl : length_refused L r
    · rw [pipe_receive_of_length_refused L C r id0 result0 hpos hl]
      simp [hl, hpos, hne]
    · by_cases hv : version_refused L r
      · rw [pipe_receive_of_version_refused L C r id0 result0 hpos hv]
        simp [hv, hpos, hne]
      · rw [pipe_receive_of_accepted L C r id0 result0 hpos hl hv]
        rcases hx : (xpc_unpack C (frame_payload L r)).isSome with _ | _
        · simp [hl, hv, hpos, hne]
        · simp only [if_true, hl, hv, hpos, hne, hnn, true_and, not_false_eq_true,
            false_or, or_false, and_true, false_and, or_true, iff_true, true_implies,
            Bool.true_eq_false, iff_false, and_self]
          omega

/-- C10 (the code at the failing input): the transport returns 8, fewer
bytes than the 24 of the header, and the buffer holds `length = 1`,
`version = 1` and a payload byte the small codec decodes. The length is
bad, `1 + 24 > 8`, so the outcome should be the failure -1; the comparison
of line 415 does not refuse the frame (`8 - 24` wraps around), the decoder
is called and yields an object, and `xpc_pipe_receive` returns 8, the
outcome of a success, with `*id` and `*result` written. -/
theorem bad_length_returns_success :
    0 < short_read_decodable.ret ∧
    short_read_decodable.ret <
      ((header_length spec_frame short_read_decodable.buffer + spec_frame.hsize : Nat) : Int) ∧
    ¬ length_refused spec_frame short_read_decodable ∧
    xpc_unpack sample_codec (frame_payload spec_frame short_read_decodable) =
      some (.scalar 0 1 .null) ∧
    (xpc_pipe_receive spec_frame sample_codec short_read_decodable 99 none).ret = 8 ∧
    (xpc_pipe_receive spec_frame sample_codec short_read_decodable 99 none).ret ≠ -1 ∧
    (xpc_pipe_receive spec_frame sample_codec short_read_decodable 99 none).id = 7 ∧
    (xpc_pipe_receive spec_frame sample_codec short_read_decodable 99 none).result =
      some (.scalar 0 1 .null) := by
  have hl : ¬ length_refused spec_frame short_read_decodable := by decide
  have hv : ¬ version_refused spec_frame short_read_decodable := by decide
  have hpos : 0 < short_read_decodable.ret := by decide
  have hu : xpc_unpack sample_codec (frame_payload spec_frame short_read_decodable) =
      some (.scalar 0 1 .null) := by rfl
  have hid : header_id spec_frame short_read_decodable.buffer = 7 := by decide
  rw [pipe_receive_of_accepted spec_frame sample_codec short_read_decodable 99 none hpos hl hv,
    hu, hid]
  exact ⟨hpos, by decide, hl, rfl, rfl, by decide, rfl, rfl⟩

/-! ## Teardown -/

theorem freed_objects_append (s t : List heap_event) :
    freed_objects (s ++ t) = freed_objects s ++ freed_objects t := by
  induction s with
  | nil => rfl
  | cons e s ih => cases e <;> simp [freed_objects, ih]

theorem freed_pairs_append (s t : List heap_event) :
    freed_pairs (s ++ t) = freed_pairs s ++ freed_pairs t := by
  induction s with
  | nil => rfl
  | cons e s ih => cases e <;> simp [freed_pairs, ih]

mutual
theorem freed_objects_destroy :
    ∀ xo : xpc_object, (freed_objects (xpc_object_destroy xo)).Perm (object_addrs xo)
  | .dictionary a _ ps => by
    rw [xpc_object_destroy, object_addrs, freed_objects_append]
    exact (List.perm_append_singleton a _).trans
      (List.Perm.cons a (freed_objects_dictionary_destroy ps))
  | .array a _ es => by
    rw [xpc_object_destroy, object_addrs, freed_objects_append]
    exact (List.perm_append_singleton a _).trans
      (List.Perm.cons a (freed_objects_array_destroy es))
  | .scalar a _ _ => by
    rw [xpc_object_destroy, object_addrs]
    exact List.Perm.refl _
theorem freed_objects_dictionary_destroy :
    ∀ ps : List (Nat × String × xpc_object),
      (freed_objects (xpc_dictionary_destroy ps)).Perm (object_addrs_pairs ps)
  | [] => by
    rw [xpc_dictionary_destroy, object_addrs_pairs]
    exact List.Perm.refl _
  | (p, _, v) :: rest => by
    rw [xpc_dictionary_destroy, object_addrs_pairs, freed_objects_append]
    exact List.Perm.append (freed_objects_destroy v) (freed_objects_dictionary_destroy rest)
theorem freed_objects_array_destroy :
    ∀ es : List xpc_object,
      (freed_objects (xpc_array_destroy es)).Perm (object_addrs_elems es)
  | [] => by
    rw [xpc_array_destroy, object_addrs_elems]
    exact List.Perm.refl _
  | v :: rest => by
    rw [xpc_array_destroy, object_addrs_elems, freed_objects_append]
    exact List.Perm.append (freed_objects_destroy v) (freed_objects_array_destroy rest)
end

mutual
theorem freed_pairs_destroy :
    ∀ xo : xpc_object, (freed_pairs (xpc_object_destroy xo)).Perm (pair_addrs xo)
  | .dictionary a _ ps => by
    rw [xpc_object_destroy, pair_addrs, freed_pairs_append]
    simpa [freed_pairs] using freed_pairs_dictionary_destroy ps
  | .array a _ es => by
    rw [xpc_object_destroy, pair_addrs, freed_pairs_append]
    simpa [freed_pairs] using freed_pairs_array_destroy es
  | .scalar a _ _ => by
    rw [xpc_object_destroy, pair_addrs]
    exact List.Perm.refl _
theorem freed_pairs_dictionary_destroy :
    ∀ ps : List (Nat × String × xpc_object),
      (freed_pairs (xpc_dictionary_destroy ps)).Perm (pair_addrs_pairs ps)
  | [] => by
    rw [xpc_dictionary_destroy, pair_addrs_pairs]
    exact List.Perm.refl _
  | (p, _, v) :: rest => by
    rw [xpc_dictionary_destroy, pair_addrs_pairs, freed_pairs_append]
    have h1 := freed_pairs_destroy v
    have h2 := freed_pairs_dictionary_destroy rest
    have h3 : (freed_pairs (xpc_object_destroy v) ++ p :: freed_pairs (xpc_dictionary_destroy rest)).Perm
        (p :: (freed_pairs (xpc_object_destroy v) ++ freed_pairs (xpc_dictionary_destroy rest))) :=
      List.perm_middle
    exact h3.trans (List.Perm.cons p (List.Perm.append h1 h2))
theorem freed_pairs_array_destroy :
    ∀ es : List xpc_object,
      (freed_pairs (xpc_array_destroy es)).Perm (pair_addrs_elems es)
  | [] => by
    rw [xpc_array_destroy, pair_addrs_elems]
    exact List.Perm.refl _
  | v :: rest => by
    rw [xpc_array_destroy, pair_addrs_elems, freed_pairs_append]
    exact List.Perm.append (freed_pairs_destroy v) (freed_pairs_array_destroy rest)
end

mutual
theorem length_object_addrs : ∀ xo : xpc_object, (object_addrs xo).length = node_count xo
  | .dictionary a _ ps => by
    rw [object_addrs, node_count, List.length_cons, length_object_addrs_pairs ps]
    omega
  | .array a _ es => by
    rw [object_addrs, node_count, List.length_cons, length_object_addrs_elems es]
    omega
  | .scalar a _ _ => by
    rw [object_addrs, node_count]
    rfl
theorem length_object_addrs_pairs :
    ∀ ps : List (Nat × String × xpc_object),
      (object_addrs_pairs ps).length = node_count_pairs ps
  | [] => by
    rw [object_addrs_pairs, node_count_pairs]
    rfl
  | (_, _, v) :: rest => by
    rw [object_addrs_pairs, node_count_pairs, List.length_append, length_object_addrs v,
      length_object_addrs_pairs rest]
theorem length_object_addrs_elems :
    ∀ es : List xpc_object, (object_addrs_elems es).length = node_count_elems es
  | [] => by
    rw [object_addrs_elems, node_count_elems]
    rfl
  | v :: rest => by
    rw [object_addrs_elems, node_count_elems, List.length_append, length_object_addrs v,
      length_object_addrs_elems rest]
end

/-- C6: `xpc_object_destroy` is a total function on trees of any depth and
any mix of dictionaries and arrays (it terminates). On a tree, that is, when
no address occurs at two nodes and no pair record occurs twice, the objects
it frees are exactly the nodes of the tree: as many frees as nodes, no
address freed twice, every node freed once, nothing else freed; and the
pair records it frees are exactly the pair records of the tree, each once. -/
theorem destroy_frees_each_node_once (xo : xpc_object)
    (hnodes : (object_addrs xo).Nodup) (hpairs : (pair_addrs xo).Nodup) :
    (freed_objects (xpc_object_destroy xo)).length = node_count xo ∧
    (freed_objects (xpc_object_destroy xo)).Nodup ∧
    (∀ a, a ∈ object_addrs xo → (freed_objects (xpc_object_destroy xo)).count a = 1) ∧
    (∀ a, a ∈ freed_objects (xpc_object_destroy xo) → a ∈ object_addrs xo) ∧
    (freed_pairs (xpc_object_destroy xo)).Nodup ∧
    (∀ a, a ∈ pair_addrs xo → (freed_pairs (xpc_object_destroy xo)).count a = 1) ∧
    (∀ a, a ∈ freed_pairs (xpc_object_destroy xo) → a ∈ pair_addrs xo) := by
  have ho := freed_objects_destroy xo
  have hp := freed_pairs_destroy xo
  refine ⟨?_, ho.nodup_iff.mpr hnodes, ?_, fun a h => ho.mem_iff.mp h,
    hp.nodup_iff.mpr hpairs, ?_, fun a h => hp.mem_iff.mp h⟩
  · rw [ho.length_eq, length_object_addrs]
  · intro a ha
    rw [ho.count_eq, List.count_eq_one_of_mem hnodes ha]
  · intro a ha
    rw [hp.count_eq, List.count_eq_one_of_mem hpairs ha]

/-- C6 at a concrete input: `sample_dict`, a dictionary holding a scalar
and an array of two scalars, five nodes and two pair records. -/
theorem destroy_frees_each_node_once_witness :
    ((object_addrs sample_dict).Nodup ∧ (pair_addrs sample_dict).Nodup) ∧
    xpc_object_destroy sample_dict =
      [.free_object 2, .free_pair 11, .free_object 4, .free_object 5, .free_object 3,
        .free_pair 12, .free_object 1] ∧
    ((freed_objects (xpc_object_destroy sample_dict)).length = node_count sample_dict ∧
    (freed_objects (xpc_object_destroy sample_dict)).Nodup ∧
    (∀ a, a ∈ object_addrs sample_dict →
      (freed_objects (xpc_object_destroy sample_dict)).count a = 1) ∧
    (∀ a, a ∈ freed_objects (xpc_object_destroy sample_dict) → a ∈ object_addrs sample_dict) ∧
    (freed_pairs (xpc_object_destroy sample_dict)).Nodup ∧
    (∀ a, a ∈ pair_addrs sample_dict →
      (freed_pairs (xpc_object_destroy sample_dict)).count a = 1) ∧
    (∀ a, a ∈ freed_pairs (xpc_object_destroy sample_dict) → a ∈ pair_addrs sample_dict)) :=
  ⟨⟨by decide, by decide⟩, by decide,
    destroy_frees_each_node_once sample_dict (by decide) (by decide)⟩

theorem destroy_ignores_refcnt (xo : xpc_object) (r : Nat) :
    xpc_object_destroy (xo.set_refcnt r) = xpc_object_destroy xo := by
  cases xo <;> simp [xpc_object.set_refcnt, xpc_object_destroy]

theorem free_self_mem_destroy (xo : xpc_object) :
    heap_event.free_object xo.addr ∈ xpc_object_destroy xo := by
  cases xo <;> simp [xpc_object.addr, xpc_object_destroy]

theorem destroy_infix_dictionary_destroy (child : xpc_object) :
    ∀ ps : List (Nat × String × xpc_object), child ∈ ps.map (fun p => p.2.2) →
      xpc_object_destroy child <:+: xpc_dictionary_destroy ps
  | [], h => by simp at h
  | (p, k, v) :: rest, h => by
    rw [xpc_dictionary_destroy]
    rw [List.map_cons, List.mem_cons] at h
    rcases h with h | h
    · subst h
      exact ⟨[], heap_event.free_pair p :: xpc_dictionary_destroy rest, by simp⟩
    · obtain ⟨s, t, hst⟩ := destroy_infix_dictionary_destroy child rest h
      exact ⟨xpc_object_destroy v ++ heap_event.free_pair p :: s, t, by simp [← hst]⟩

theorem destroy_infix_array_destroy (child : xpc_object) :
    ∀ es : List xpc_object, child ∈ es →
      xpc_object_destroy child <:+: xpc_array_destroy es
  | [], h => by simp at h
  | v :: rest, h => by
    rw [xpc_array_destroy]
    rw [List.mem_cons] at h
    rcases h with h | h
    · subst h
      exact ⟨[], xpc_array_destroy rest, by simp⟩
    · obtain ⟨s, t, hst⟩ := destroy_infix_array_destroy child rest h
      exact ⟨xpc_object_destroy v ++ s, t, by simp [← hst]⟩

/-- C7, as the code has it: when `xpc_object_destroy` runs on a dictionary
or an array, it runs `xpc_object_destroy`, not `xpc_release`, on every
child. Whatever the reference count of the child, the whole teardown of the
child is part of the teardown of the container and the child is freed; the
count of the child is not read (the calls made are the same for every value
of it). -/
theorem destroy_destroys_children (container child : xpc_object)
    (hchild : child ∈ container.children) :
    xpc_object_destroy child <:+: xpc_object_destroy container ∧
    heap_event.free_object child.addr ∈ xpc_object_destroy container ∧
    (∀ r, xpc_object_destroy (child.set_refcnt r) = xpc_object_destroy child) := by
  have hin : xpc_object_destroy child <:+: xpc_object_destroy container := by
    cases container with
    | dictionary a r ps =>
      rw [xpc_object_destroy]
      obtain ⟨s, t, hst⟩ := destroy_infix_dictionary_destroy child ps hchild
      exact ⟨s, t ++ [heap_event.free_object a], by simp [← hst]⟩
    | array a r es =>
      rw [xpc_object_destroy]
      obtain ⟨s, t, hst⟩ := destroy_infix_array_destroy child es hchild
      exact ⟨s, t ++ [heap_event.free_object a], by simp [← hst]⟩
    | scalar a r v => simp [xpc_object.children] at hchild
  exact ⟨hin, hin.subset (free_self_mem_destroy child), destroy_ignores_refcnt child⟩

/-- C7, as the code has it, at a concrete input: an array whose element has
count 2; the element is freed with the array. -/
theorem destroy_destroys_children_witness :
    xpc_object.scalar 2 2 (.bool true) ∈ array_with_retained_child.children ∧
    (xpc_object_destroy (.scalar 2 2 (.bool true)) <:+:
        xpc_object_destroy array_with_retained_child ∧
      heap_event.free_object (xpc_object.scalar 2 2 (.bool true)).addr ∈
        xpc_object_destroy array_with_retained_child ∧
      (∀ r, xpc_object_destroy ((xpc_object.scalar 2 2 (.bool true)).set_refcnt r) =
        xpc_object_destroy (.scalar 2 2 (.bool true)))) :=
  ⟨List.mem_singleton.mpr rfl,
    destroy_destroys_children array_with_retained_child (.scalar 2 2 (.bool true))
      (List.mem_singleton.mpr rfl)⟩

/-- C7 as stated fails: the array `array_with_retained_child` has one
child, at address 2, whose count is 2; `xpc_object_destroy` on the array
frees that child (and then the array), although another owner still holds a
reference to it. -/
theorem retained_child_is_freed :
    array_with_retained_child.children = [xpc_object.scalar 2 2 (.bool true)] ∧
    2 ≤ (xpc_object.scalar 2 2 (.bool true)).xo_refcnt ∧
    xpc_object_destroy array_with_retained_child =
      [heap_event.free_object 2, heap_event.free_object 1] ∧
    heap_event.free_object 2 ∈ xpc_object_destroy array_with_retained_child := by
  refine ⟨rfl, by decide, by decide, by decide⟩

/-! ## Reference counting -/

theorem refcnt_set_refcnt (xo : xpc_object) (r : Nat) : (xo.set_refcnt r).xo_refcnt = r := by
  cases xo <;> rfl

theorem set_refcnt_set_refcnt (xo : xpc_object) (a b : Nat) :
    (xo.set_refcnt a).set_refcnt b = xo.set_refcnt b := by
  cases xo <;> rfl

theorem set_refcnt_self (xo : xpc_object) (r : Nat) (h : xo.xo_refcnt = r) :
    xo.set_refcnt r = xo := by
  subst h
  cases xo <;> rfl

theorem uint_mod_eq : UINT_MOD = 4294967296 := by
  unfold UINT_MOD
  norm_num

theorem rc_step_retain (xo : xpc_object) (dc : List (List heap_event)) :
    rc_step ⟨xo, dc⟩ .retain = ⟨xo.set_refcnt ((xo.xo_refcnt + 1) % UINT_MOD), dc⟩ := rfl

theorem rc_step_release_shared (xo : xpc_object) (dc : List (List heap_event))
    (h : 1 < xo.xo_refcnt) :
    rc_step ⟨xo, dc⟩ .release =
      ⟨xo.set_refcnt ((xo.xo_refcnt + (UINT_MOD - 1)) % UINT_MOD), dc⟩ := by
  simp [rc_step, xpc_release, h]

theorem rc_step_release_last (xo : xpc_object) (dc : List (List heap_event))
    (h : ¬ 1 < xo.xo_refcnt) :
    rc_step ⟨xo, dc⟩ .release =
      ⟨xo.set_refcnt ((xo.xo_refcnt + (UINT_MOD - 1)) % UINT_MOD),
        dc ++ [xpc_object_destroy xo]⟩ := by
  simp [rc_step, xpc_release, h, destroy_ignores_refcnt]

theorem rc_run_cons (s : rc_state) (c : rc_call) (cs : List rc_call) :
    rc_run s (c :: cs) = rc_run (rc_step s c) cs := rfl

theorem rc_run_append (s : rc_state) (a b : List rc_call) :
    rc_run s (a ++ b) = rc_run (rc_run s a) b := by
  unfold rc_run
  exact List.foldl_append _ _ _ _

/-- The count of an object that started at 1 follows the number of
references held, as long as it stays below `2 ^ 32`, and no release destroys
the object while a retain is outstanding. -/
theorem rc_run_balanced (calls : List rc_call) :
    ∀ (xo : xpc_object) (dc : List (List heap_event)) (held : Nat),
      xo.xo_refcnt = 1 + held → held + calls.count rc_call.retain + 1 < UINT_MOD →
      rc_balanced held calls = true →
      calls.count rc_call.release ≤ held + calls.count rc_call.retain ∧
      rc_run ⟨xo, dc⟩ calls =
        ⟨xo.set_refcnt
          (1 + held + calls.count rc_call.retain - calls.count rc_call.release), dc⟩ := by
  induction calls with
  | nil =>
    intro xo dc held h _ _
    exact ⟨by simp, by simp [rc_run, set_refcnt_self xo (1 + held) h]⟩
  | cons c cs ih =>
    intro xo dc held h hlt hbal
    rw [uint_mod_eq] at hlt
    cases c with
    | retain =>
      have hc1 : (rc_call.retain :: cs).count rc_call.retain = cs.count rc_call.retain + 1 := by
        simp
      have hc2 : (rc_call.retain :: cs).count rc_call.release = cs.count rc_call.release := by
        simp
      rw [hc1] at hlt
      rw [rc_balanced] at hbal
      have hstep : (xo.xo_refcnt + 1) % UINT_MOD = 1 + (held + 1) := by
        rw [uint_mod_eq, h]
        omega
      obtain ⟨hle, hrun⟩ := ih (xo.set_refcnt (1 + (held + 1))) dc (held + 1)
        (refcnt_set_refcnt _ _) (by rw [uint_mod_eq]; omega) hbal
      have e : 1 + (held + 1) + cs.count rc_call.retain - cs.count rc_call.release =
          1 + held + (cs.count rc_call.retain + 1) - cs.count rc_call.release := by omega
      rw [rc_run_cons, rc_step_retain, hstep, hrun, set_refcnt_set_refcnt, hc1, hc2, e]
      exact ⟨by omega, rfl⟩
    | release =>
      have hc1 : (rc_call.release :: cs).count rc_call.retain = cs.count rc_call.retain := by
        simp
      have hc2 : (rc_call.release :: cs).count rc_call.release =
          cs.count rc_call.release + 1 := by
        simp
      rw [hc1] at hlt
      rw [rc_balanced] at hbal
      simp only [Bool.and_eq_true, bne_iff_ne, ne_eq] at hbal
      obtain ⟨hheld, hbal⟩ := hbal
      have hstep : (xo.xo_refcnt + (UINT_MOD - 1)) % UINT_MOD = 1 + (held - 1) := by
        rw [uint_mod_eq, h]
        omega
      obtain ⟨hle, hrun⟩ := ih (xo.set_refcnt (1 + (held - 1))) dc (held - 1)
        (refcnt_set_refcnt _ _) (by rw [uint_mod_eq]; omega) hbal
      have e : 1 + (held - 1) + cs.count rc_call.retain - cs.count rc_call.release =
          1 + held + cs.count rc_call.retain - (cs.count rc_call.release + 1) := by omega
      rw [rc_run_cons, rc_step_release_shared xo dc (by omega), hstep, hrun,
        set_refcnt_set_refcnt, hc1, hc2, e]
      exact ⟨by omega, rfl⟩

theorem le_max_held (held : Nat) (calls : List rc_call) : held ≤ max_held held calls := by
  cases calls with
  | nil => exact Nat.le_refl _
  | cons c cs =>
    cases c with
    | retain => exact Nat.le_max_left _ _
    | release => exact Nat.le_max_left _ _

theorem max_held_retain (held : Nat) (cs : List rc_call) :
    max_held held (rc_call.retain :: cs) = max held (max_held (held + 1) cs) := rfl

theorem max_held_release (held : Nat) (cs : List rc_call) :
    max_held held (rc_call.release :: cs) = max held (max_held (held - 1) cs) := rfl

/-- The count of an object that started at 1 follows the number of
references held, as long as fewer than `2 ^ 32 - 1` retains are outstanding
at any time, and no release destroys the object while a retain is
outstanding. -/
theorem rc_run_within (calls : List rc_call) :
    ∀ (xo : xpc_object) (dc : List (List heap_event)) (held : Nat),
      xo.xo_refcnt = 1 + held → max_held held calls < UINT_MOD - 1 →
      rc_balanced held calls = true →
      calls.count rc_call.release ≤ held + calls.count rc_call.retain ∧
      rc_run ⟨xo, dc⟩ calls =
        ⟨xo.set_refcnt
          (1 + held + calls.count rc_call.retain - calls.count rc_call.release), dc⟩ := by
  induction calls with
  | nil =>
    intro xo dc held h _ _
    exact ⟨by simp, by simp [rc_run, set_refcnt_self xo (1 + held) h]⟩
  | cons c cs ih =>
    intro xo dc held h hlt hbal
    rw [uint_mod_eq] at hlt
    cases c with
    | retain =>
      have hc1 : (rc_call.retain :: cs).count rc_call.retain = cs.count rc_call.retain + 1 := by
        simp
      have hc2 : (rc_call.retain :: cs).count rc_call.release = cs.count rc_call.release := by
        simp
      rw [max_held_retain] at hlt
      have hle1 := le_max_held (held + 1) cs
      have hm : max_held (held + 1) cs < 4294967296 - 1 :=
        Nat.lt_of_le_of_lt (Nat.le_max_right _ _) hlt
      rw [rc_balanced] at hbal
      have hstep : (xo.xo_refcnt + 1) % UINT_MOD = 1 + (held + 1) := by
        rw [uint_mod_eq, h]
        omega
      obtain ⟨hle, hrun⟩ := ih (xo.set_refcnt (1 + (held + 1))) dc (held + 1)
        (refcnt_set_refcnt _ _) (by rw [uint_mod_eq]; exact hm) hbal
      have e : 1 + (held + 1) + cs.count rc_call.retain - cs.count rc_call.release =
          1 + held + (cs.count rc_call.retain + 1) - cs.count rc_call.release := by omega
      rw [rc_run_cons, rc_step_retain, hstep, hrun, set_refcnt_set_refcnt, hc1, hc2, e]
      exact ⟨by omega, rfl⟩
    | release =>
      have hc1 : (rc_call.release :: cs).count rc_call.retain = cs.count rc_call.retain := by
        simp
      have hc2 : (rc_call.release :: cs).count rc_call.release =
          cs.count rc_call.release + 1 := by
        simp
      rw [max_held_release] at hlt
      have hh : held < 4294967296 - 1 := Nat.lt_of_le_of_lt (Nat.le_max_left _ _) hlt
      have hm : max_held (held - 1) cs < 4294967296 - 1 :=
        Nat.lt_of_le_of_lt (Nat.le_max_right _ _) hlt
      rw [rc_balanced] at hbal
      simp only [Bool.and_eq_true, bne_iff_ne, ne_eq] at hbal
      obtain ⟨hheld, hbal⟩ := hbal
      have hstep : (xo.xo_refcnt + (UINT_MOD - 1)) % UINT_MOD = 1 + (held - 1) := by
        rw [uint_mod_eq, h]
        omega
      obtain ⟨hle, hrun⟩ := ih (xo.set_refcnt (1 + (held - 1))) dc (held - 1)
        (refcnt_set_refcnt _ _) (by rw [uint_mod_eq]; exact hm) hbal
      have e : 1 + (held - 1) + cs.count rc_call.retain - cs.count rc_call.release =
          1 + held + cs.count rc_call.retain - (cs.count rc_call.release + 1) := by omega
      rw [rc_run_cons, rc_step_release_shared xo dc (by omega), hstep, hrun,
        set_refcnt_set_refcnt, hc1, hc2, e]
      exact ⟨by omega, rfl⟩

theorem rc_run_keeps_destroy_calls (calls : List rc_call) :
    ∀ (xo : xpc_object) (dc : List (List heap_event)), dc ≠ [] →
      (rc_run ⟨xo, dc⟩ calls).destroy_calls ≠ [] := by
  induction calls with
  | nil => intro xo dc h; exact h
  | cons c cs ih =>
    intro xo dc h
    rw [rc_run_cons]
    cases c with
    | retain =>
      rw [rc_step_retain]
      exact ih _ dc h
    | release =>
      by_cases h1 : 1 < xo.xo_refcnt
      · rw [rc_step_release_shared xo dc h1]
        exact ih _ dc h
      · rw [rc_step_release_last xo dc h1]
        exact ih _ _ (by simp)

/-- The bound on the references outstanding is as wide as the counter
allows: a sequence that hands back every reference it took and at some
point has `2 ^ 32 - 1` or more retains outstanding makes some release
destroy the object before the sequence is over. -/
theorem rc_run_destroys_of_peak (calls : List rc_call) :
    ∀ (xo : xpc_object) (dc : List (List heap_event)) (held : Nat),
      xo.xo_refcnt = (1 + held) % UINT_MOD → rc_balanced held calls = true →
      calls.count rc_call.release = held + calls.count rc_call.retain →
      UINT_MOD - 1 ≤ max_held held calls →
      (rc_run ⟨xo, dc⟩ calls).destroy_calls ≠ [] := by
  induction calls with
  | nil =>
    intro xo dc held _ _ hcount hpeak
    rw [uint_mod_eq] at hpeak
    simp only [List.count_nil] at hcount
    rw [max_held] at hpeak
    omega
  | cons c cs ih =>
    intro xo dc held h hbal hcount hpeak
    rw [uint_mod_eq] at hpeak h
    rw [rc_run_cons]
    cases c with
    | retain =>
      have hc1 : (rc_call.retain :: cs).count rc_call.retain = cs.count rc_call.retain + 1 := by
        simp
      have hc2 : (rc_call.retain :: cs).count rc_call.release = cs.count rc_call.release := by
        simp
      rw [hc1, hc2] at hcount
      rw [max_held_retain] at hpeak
      have hle1 := le_max_held (held + 1) cs
      have hm : 4294967296 - 1 ≤ max_held (held + 1) cs := by
        rcases Nat.le_total held (max_held (held + 1) cs) with hx | hx
        · rw [Nat.max_eq_right hx] at hpeak
          exact hpeak
        · omega
      rw [rc_balanced] at hbal
      rw [rc_step_retain]
      exact ih _ dc (held + 1)
        (by rw [refcnt_set_refcnt, uint_mod_eq, h]; omega) hbal (by omega)
        (by rw [uint_mod_eq]; exact hm)
    | release =>
      have hc1 : (rc_call.release :: cs).count rc_call.retain = cs.count rc_call.retain := by
        simp
      have hc2 : (rc_call.release :: cs).count rc_call.release =
          cs.count rc_call.release + 1 := by
        simp
      rw [hc1, hc2] at hcount
      rw [max_held_release] at hpeak
      rw [rc_balanced] at hbal
      simp only [Bool.and_eq_true, bne_iff_ne, ne_eq] at hbal
      obtain ⟨hheld, hbal⟩ := hbal
      by_cases h1 : 1 < xo.xo_refcnt
      · have hle1 := le_max_held (held - 1) cs
        have hm : 4294967296 - 1 ≤ max_held (held - 1) cs := by
          rcases Nat.le_total held (max_held (held - 1) cs) with hx | hx
          · rw [Nat.max_eq_right hx] at hpeak
            exact hpeak
          · rw [Nat.max_eq_left hx] at hpeak
            by_contra hlt
            rw [h] at h1
            omega
        rw [rc_step_release_shared xo dc h1]
        exact ih _ dc (held - 1)
          (by rw [refcnt_set_refcnt, uint_mod_eq, h]; omega) hbal (by omega)
          (by rw [uint_mod_eq]; exact hm)
      · rw [rc_step_release_last xo dc h1]
        exact rc_run_keeps_destroy_calls cs _ _ (by simp)

theorem count_retain_release_pairs (k : Nat) :
    (retain_release_pairs k).count rc_call.retain = k ∧
    (retain_release_pairs k).count rc_call.release = k := by
  induction k with
  | zero => exact ⟨rfl, rfl⟩
  | succ k ih =>
    rw [retain_release_pairs]
    simp [ih.1, ih.2]

theorem rc_balanced_retain_release_pairs (k : Nat) :
    rc_balanced 0 (retain_release_pairs k) = true := by
  induction k with
  | zero => rfl
  | succ k ih =>
    rw [retain_release_pairs, rc_balanced, rc_balanced]
    simpa using ih

theorem max_held_retain_release_pairs (k : Nat) :
    max_held 0 (retain_release_pairs k) ≤ 1 := by
  induction k with
  | zero => exact Nat.zero_le _
  | succ k ih =>
    rw [retain_release_pairs, max_held_retain, max_held_release]
    simp only [Nat.zero_add, Nat.sub_self, Nat.add_sub_cancel]
    omega

/-- C5, within the range of the counter: for a value whose count is 1 and
every `n`, after `n` calls of `xpc_retain` and `n` calls of `xpc_release`,
in any order in which the releases so far never outnumber the retains so
far and fewer than `2 ^ 32 - 1` retains are outstanding at any time, the
count is 1 again (the object is as it was) and `xpc_object_destroy` has not
been called; one further `xpc_release` calls `xpc_object_destroy` on it
exactly once. With `n = 0`: a single release on a fresh value destroys it.
`xpc_retain` returns its argument. -/
theorem retain_release_balanced (xo : xpc_object) (calls : List rc_call) (n : Nat)
    (hfresh : xo.xo_refcnt = 1)
    (hretain : calls.count rc_call.retain = n) (hrelease : calls.count rc_call.release = n)
    (hbal : rc_balanced 0 calls = true) (hpeak : max_held 0 calls < UINT_MOD - 1) :
    (rc_run ⟨xo, []⟩ calls).xo.xo_refcnt = 1 ∧
    (rc_run ⟨xo, []⟩ calls).xo = xo ∧
    (rc_run ⟨xo, []⟩ calls).destroy_calls = [] ∧
    (rc_step (rc_run ⟨xo, []⟩ calls) rc_call.release).destroy_calls =
      [xpc_object_destroy xo] ∧
    (rc_step (rc_run ⟨xo, []⟩ calls) rc_call.release).destroy_calls.length = 1 ∧
    (xpc_retain xo).1 = xo.addr := by
  obtain ⟨_, hrun⟩ := rc_run_within calls xo [] 0 (by rw [hfresh]) hpeak hbal
  have hone : 1 + 0 + calls.count rc_call.retain - calls.count rc_call.release = 1 := by
    omega
  rw [hone, set_refcnt_self xo 1 hfresh] at hrun
  rw [hrun, rc_step_release_last xo [] (by rw [hfresh]; omega)]
  exact ⟨hfresh, rfl, rfl, rfl, rfl, rfl⟩

/-- C5, within the range of the counter, at two concrete inputs, both on
the fresh null value: the four calls retain, release, retain, release; and
4294967295 pairs retain, release, where the number of calls is beyond the
range of the counter and at most one retain is outstanding at any time. -/
theorem retain_release_balanced_witness :
    ((fresh_null.xo_refcnt = 1 ∧
      [rc_call.retain, .release, .retain, .release].count rc_call.retain = 2 ∧
      [rc_call.retain, .release, .retain, .release].count rc_call.release = 2 ∧
      rc_balanced 0 [rc_call.retain, .release, .retain, .release] = true ∧
      max_held 0 [rc_call.retain, .release, .retain, .release] < UINT_MOD - 1) ∧
    ((rc_run ⟨fresh_null, []⟩ [rc_call.retain, .release, .retain, .release]).xo.xo_refcnt = 1 ∧
      (rc_run ⟨fresh_null, []⟩ [rc_call.retain, .release, .retain, .release]).xo = fresh_null ∧
      (rc_run ⟨fresh_null, []⟩ [rc_call.retain, .release, .retain, .release]).destroy_calls
        = [] ∧
      (rc_step (rc_run ⟨fresh_null, []⟩ [rc_call.retain, .release, .retain, .release])
        rc_call.release).destroy_calls = [xpc_object_destroy fresh_null] ∧
      (rc_step (rc_run ⟨fresh_null, []⟩ [rc_call.retain, .release, .retain, .release])
        rc_call.release).destroy_calls.length = 1 ∧
      (xpc_retain fresh_null).1 = fresh_null.addr)) ∧
    ((retain_release_pairs 4294967295).count rc_call.retain = 4294967295 ∧
      (retain_release_pairs 4294967295).count rc_call.release = 4294967295 ∧
      rc_balanced 0 (retain_release_pairs 4294967295) = true ∧
      max_held 0 (retain_release_pairs 4294967295) < UINT_MOD - 1) ∧
    ((rc_run ⟨fresh_null, []⟩ (retain_release_pairs 4294967295)).xo.xo_refcnt = 1 ∧
      (rc_run ⟨fresh_null, []⟩ (retain_release_pairs 4294967295)).xo = fresh_null ∧
      (rc_run ⟨fresh_null, []⟩ (retain_release_pairs 4294967295)).destroy_calls = [] ∧
      (rc_step (rc_run ⟨fresh_null, []⟩ (retain_release_pairs 4294967295))
        rc_call.release).destroy_calls = [xpc_object_destroy fresh_null] ∧
      (rc_step (rc_run ⟨fresh_null, []⟩ (retain_release_pairs 4294967295))
        rc_call.release).destroy_calls.length = 1 ∧
      (xpc_retain fresh_null).1 = fresh_null.addr) :=
  have hpeak : max_held 0 (retain_release_pairs 4294967295) < UINT_MOD - 1 :=
    Nat.lt_of_le_of_lt (max_held_retain_release_pairs 4294967295)
      (by rw [uint_mod_eq]; omega)
  ⟨⟨⟨by decide, by decide, by decide, by decide, by decide⟩,
      retain_release_balanced fresh_null [rc_call.retain, .release, .retain, .release] 2
        (by decide) (by decide) (by decide) (by decide) (by decide)⟩,
    ⟨(count_retain_release_pairs 4294967295).1, (count_retain_release_pairs 4294967295).2,
      rc_balanced_retain_release_pairs 4294967295, hpeak⟩,
    retain_release_balanced fresh_null (retain_release_pairs 4294967295) 4294967295
      rfl (count_retain_release_pairs 4294967295).1
      (count_retain_release_pairs 4294967295).2
      (rc_balanced_retain_release_pairs 4294967295) hpeak⟩

theorem rc_run_retains (k : Nat) :
    ∀ (xo : xpc_object) (dc : List (List heap_event)), xo.xo_refcnt < UINT_MOD →
      rc_run ⟨xo, dc⟩ (List.replicate k rc_call.retain) =
        ⟨xo.set_refcnt ((xo.xo_refcnt + k) % UINT_MOD), dc⟩ := by
  induction k with
  | zero =>
    intro xo dc h
    rw [Nat.add_zero, Nat.mod_eq_of_lt h, set_refcnt_self xo _ rfl]
    rfl
  | succ k ih =>
    intro xo dc h
    have hlt : (xo.set_refcnt ((xo.xo_refcnt + 1) % UINT_MOD)).xo_refcnt < UINT_MOD := by
      rw [refcnt_set_refcnt]
      exact Nat.mod_lt _ (by rw [uint_mod_eq]; omega)
    have e : ((xo.xo_refcnt + 1) % UINT_MOD + k) % UINT_MOD =
        (xo.xo_refcnt + (k + 1)) % UINT_MOD := by
      rw [uint_mod_eq]
      omega
    rw [List.replicate_succ, rc_run_cons, rc_step_retain, ih _ dc hlt, refcnt_set_refcnt,
      set_refcnt_set_refcnt, e]

theorem rc_run_releases (k : Nat) :
    ∀ (xo : xpc_object) (dc : List (List heap_event)), xo.xo_refcnt < UINT_MOD →
      k < xo.xo_refcnt →
      rc_run ⟨xo, dc⟩ (List.replicate k rc_call.release) =
        ⟨xo.set_refcnt (xo.xo_refcnt - k), dc⟩ := by
  induction k with
  | zero =>
    intro xo dc _ _
    rw [Nat.sub_zero, set_refcnt_self xo _ rfl]
    rfl
  | succ k ih =>
    intro xo dc h hk
    have hstep : (xo.xo_refcnt + (UINT_MOD - 1)) % UINT_MOD = xo.xo_refcnt - 1 := by
      rw [uint_mod_eq] at *
      omega
    have hlt : (xo.set_refcnt (xo.xo_refcnt - 1)).xo_refcnt < UINT_MOD := by
      rw [refcnt_set_refcnt]
      omega
    have hk2 : k < (xo.set_refcnt (xo.xo_refcnt - 1)).xo_refcnt := by
      rw [refcnt_set_refcnt]
      omega
    have e : xo.xo_refcnt - 1 - k = xo.xo_refcnt - (k + 1) := by omega
    rw [List.replicate_succ, rc_run_cons, rc_step_release_shared xo dc (by omega), hstep,
      ih _ dc hlt hk2, refcnt_set_refcnt, set_refcnt_set_refcnt, e]

theorem rc_balanced_retains (k : Nat) :
    ∀ (held : Nat) (rest : List rc_call),
      rc_balanced held (List.replicate k rc_call.retain ++ rest) =
        rc_balanced (held + k) rest := by
  induction k with
  | zero => intro held rest; rfl
  | succ k ih =>
    intro held rest
    rw [List.replicate_succ, List.cons_append, rc_balanced, ih]
    congr 1
    omega

theorem rc_balanced_releases (k : Nat) :
    ∀ held : Nat, k ≤ held → rc_balanced held (List.replicate k rc_call.release) = true := by
  induction k with
  | zero => intro held _; rfl
  | succ k ih =>
    intro held h
    have h0 : held ≠ 0 := by omega
    rw [List.replicate_succ, rc_balanced, ih (held - 1) (by omega)]
    simp [h0]

theorem count_retains_then_releases (n : Nat) :
    (retains_then_releases n).count rc_call.retain = n ∧
    (retains_then_releases n).count rc_call.release = n := by
  unfold retains_then_releases
  rw [List.count_append, List.count_append, List.count_replicate, List.count_replicate,
    List.count_replicate, List.count_replicate]
  exact ⟨by simp, by simp⟩

theorem rc_balanced_retains_then_releases (n : Nat) :
    rc_balanced 0 (retains_then_releases n) = true := by
  unfold retains_then_releases
  rw [rc_balanced_retains, rc_balanced_releases n (0 + n) (by omega)]

/-- After `2 ^ 32 - 1` retains the count of a fresh object has wrapped to 0;
the first of the `2 ^ 32 - 1` releases that follow finds a count that is not
greater than one and destroys the object; the remaining releases bring the
count back to 1. -/
theorem rc_run_wrap (xo : xpc_object) (n : Nat) (hfresh : xo.xo_refcnt = 1)
    (hn : n + 1 = UINT_MOD) :
    rc_run ⟨xo, []⟩ (retains_then_releases n) = ⟨xo, [xpc_object_destroy xo]⟩ := by
  have hM := uint_mod_eq
  obtain ⟨m, rfl⟩ : ∃ m, n = m + 1 := ⟨n - 1, by omega⟩
  unfold retains_then_releases
  have h1 : xo.xo_refcnt < UINT_MOD := by omega
  have e0 : (xo.xo_refcnt + (m + 1)) % UINT_MOD = 0 := by
    rw [hfresh, Nat.add_comm 1 (m + 1), hn, Nat.mod_self]
  rw [rc_run_append, rc_run_retains (m + 1) xo [] h1, e0,
    List.replicate_succ (n := m), rc_run_cons,
    rc_step_release_last _ [] (by rw [refcnt_set_refcnt]; omega), refcnt_set_refcnt,
    set_refcnt_set_refcnt, destroy_ignores_refcnt]
  have e1 : (0 + (UINT_MOD - 1)) % UINT_MOD = m + 1 := by
    rw [hM] at hn ⊢
    omega
  rw [e1, rc_run_releases m _ _ (by rw [refcnt_set_refcnt]; omega)
    (by rw [refcnt_set_refcnt]; omega), refcnt_set_refcnt, set_refcnt_set_refcnt]
  have e2 : m + 1 - m = 1 := by omega
  rw [e2, set_refcnt_self xo 1 hfresh]
  rfl

/-- C5 as stated fails for `n = 2 ^ 32 - 1`: on the fresh null value,
4294967295 retains followed by 4294967295 releases are balanced (no release
outnumbers the retains before it), yet `xpc_object_destroy` has been called
on the object by the time they are done, because the 32-bit count wrapped
to 0. -/
theorem refcount_wraps_after_uint_max_retains :
    fresh_null.xo_refcnt = 1 ∧
    (retains_then_releases 4294967295).count rc_call.retain = 4294967295 ∧
    (retains_then_releases 4294967295).count rc_call.release = 4294967295 ∧
    rc_balanced 0 (retains_then_releases 4294967295) = true ∧
    (rc_run ⟨fresh_null, []⟩ (retains_then_releases 4294967295)).destroy_calls =
      [[heap_event.free_object 1]] ∧
    (rc_run ⟨fresh_null, []⟩ (retains_then_releases 4294967295)).destroy_calls ≠ [] := by
  have hrun := rc_run_wrap fresh_null 4294967295 rfl (by rw [uint_mod_eq])
  refine ⟨rfl, (count_retains_then_releases 4294967295).1,
    (count_retains_then_releases 4294967295).2,
    rc_balanced_retains_then_releases 4294967295, ?_, ?_⟩
  · rw [hrun]
    rfl
  · rw [hrun]
    exact List.cons_ne_nil _ _

/-! ## Transport selection -/

/-- With no variable `XPC_TRANSPORT` in the environment, the first call
selects the build-time default: `mach_transport` when `MACH` is defined,
`unix_transport` otherwise (the null pointer only if that weak symbol has no
definition). -/
theorem get_transport_of_absent (B : build_config) :
    xpc_get_transport B none none =
      ⟨if B.MACH then B.addr_of .mach_transport else B.addr_of .unix_transport,
        if B.MACH then B.addr_of .mach_transport else B.addr_of .unix_transport, 1⟩ := rfl

/-- Once a transport is selected, every later call returns it and does not
call `getenv`, whatever the environment holds. -/
theorem get_transport_calls_of_selected (B : build_config) (t : xpc_transport)
    (envs : List (Option String)) :
    get_transport_calls B (some t) envs =
      envs.map (fun _ => (⟨some t, some t, 0⟩ : get_transport_result)) := by
  induction envs with
  | nil => rfl
  | cons e es ih =>
    rw [get_transport_calls]
    simp only [xpc_get_transport, List.map_cons]
    rw [ih]

/-- C8 (the code at the failing input): on the first call, with
`XPC_TRANSPORT` set to `tcp`, a string that is neither `unix` nor `mach`,
`xpc_get_transport` calls `getenv` once, selects nothing and returns the
null pointer, in every build; the `else` branch that holds the build-time
default belongs to `if (env)` and is not reached. -/
theorem unrecognized_env_returns_null (B : build_config) :
    xpc_get_transport B (some "tcp") none = ⟨none, none, 1⟩ := by
  have h1 : ¬ ("tcp" = "unix") := by decide
  have h2 : ¬ ("tcp" = "mach") := by decide
  simp only [xpc_get_transport, h1, h2, if_false]

/-- C9 (the code at the failing input): in a build with `unix_transport`
linked, a first call made while `XPC_TRANSPORT` is `tcp` returns the null
pointer and leaves nothing selected; a second call, made after the variable
was changed to `unix`, calls `getenv` again and returns `unix_transport`,
which is not what the first call returned. -/
theorem second_call_resolves_again :
    get_transport_calls ⟨false, true, false⟩ none [some "tcp", some "unix"] =
      [⟨none, none, 1⟩, ⟨some .unix_transport, some .unix_transport, 1⟩] := by
  decide

/-! ## Sending -/

theorem xpc_pack_ret_cases {τ : Type} (L : frame_decl) (C : mpack_codec τ) (xo : xpc_object)
    (id : Nat) :
    (C.xpc2mpack xo = none ∧ xpc_pack L C xo id = ⟨-1, none, none⟩) ∨
    (∃ p, C.xpc2mpack xo = some p ∧
      xpc_pack L C xo id =
        ⟨0, some (frame_of L id p), some ((p.length + L.hsize) % SIZE_MOD)⟩) := by
  rw [xpc_pack_eq]
  rcases h : C.xpc2mpack xo with _ | p
  · exact Or.inl ⟨rfl, rfl⟩
  · exact Or.inr ⟨p, rfl, rfl⟩

theorem pipe_send_of_pack_failed {τ : Type} (L : frame_decl) (C : mpack_codec τ)
    (xt_send : xt_send_call → Int) (xobj : xpc_object) (id lp rp : Nat)
    (hdict : xobj.xo_xpc_type = xpc_type_tag._XPC_TYPE_DICTIONARY)
    (hpack : (xpc_pack L C xobj id).ret ≠ 0) :
    xpc_pipe_send L C xt_send xobj id lp rp = some ⟨-1, []⟩ := by
  simp [xpc_pipe_send, hdict, hpack]

theorem pipe_send_of_packed {τ : Type} (L : frame_decl) (C : mpack_codec τ)
    (xt_send : xt_send_call → Int) (xobj : xpc_object) (id lp rp : Nat)
    (buf : List Byte) (size : Nat)
    (hdict : xobj.xo_xpc_type = xpc_type_tag._XPC_TYPE_DICTIONARY)
    (hpack : xpc_pack L C xobj id = ⟨0, some buf, some size⟩) :
    xpc_pipe_send L C xt_send xobj id lp rp =
      some ⟨if xt_send ⟨lp, rp, buf, size, none, 0⟩ ≠ 0 then -1 else 0,
        [⟨lp, rp, buf, size, none, 0⟩]⟩ := by
  simp only [xpc_pipe_send, hdict, hpack, ne_eq, not_true_eq_false, if_false,
    Option.getD_some]
  by_cases h : xt_send ⟨lp, rp, buf, size, none, 0⟩ = 0
  · simp [h]
  · simp [h]

/-- C11: on a dictionary, `xpc_pipe_send` returns 0 exactly when `xpc_pack`
returns 0 and the transport's send returns 0 on the call made, and -1
otherwise. When `xpc_pack` fails no call of `xt_send` is made; when it
succeeds, storing `buf` and `size`, exactly one call is made, with the two
ports, that `buf`, that `size`, the null resource pointer and the resource
count 0. -/
theorem pipe_send_outcome {τ : Type} (L : frame_decl) (C : mpack_codec τ)
    (xt_send : xt_send_call → Int) (xobj : xpc_object) (id lp rp : Nat)
    (hdict : xobj.xo_xpc_type = xpc_type_tag._XPC_TYPE_DICTIONARY) :
    ∃ out : pipe_send_result,
      xpc_pipe_send L C xt_send xobj id lp rp = some out ∧
      (out.ret = 0 ∨ out.ret = -1) ∧
      (out.ret = 0 ↔
        ∃ buf size, xpc_pack L C xobj id = ⟨0, some buf, some size⟩ ∧
          xt_send ⟨lp, rp, buf, size, none, 0⟩ = 0) ∧
      ((xpc_pack L C xobj id).ret ≠ 0 → out.sends = []) ∧
      (∀ buf size, xpc_pack L C xobj id = ⟨0, some buf, some size⟩ →
        out.sends = [⟨lp, rp, buf, size, none, 0⟩]) ∧
      ((xpc_pack L C xobj id).ret = 0 →
        ∃ buf size, xpc_pack L C xobj id = ⟨0, some buf, some size⟩) := by
  rcases xpc_pack_ret_cases L C xobj id with ⟨_, hp⟩ | ⟨p, _, hp⟩
  · have hne : (xpc_pack L C xobj id).ret ≠ 0 := by rw [hp]; decide
    refine ⟨⟨-1, []⟩, pipe_send_of_pack_failed L C xt_send xobj id lp rp hdict hne,
      Or.inr rfl, ?_, fun _ => rfl, ?_, ?_⟩
    · constructor
      · intro h
        exact absurd h (by decide)
      · rintro ⟨buf, size, hb, _⟩
        rw [hp] at hb
        have hr := congrArg pack_result.ret hb
        simp at hr
    · intro buf size hb
      rw [hp] at hb
      have hr := congrArg pack_result.ret hb
      simp at hr
    · intro h
      exact absurd h hne
  · refine ⟨_, pipe_send_of_packed L C xt_send xobj id lp rp _ _ hdict hp, ?_, ?_, ?_, ?_, ?_⟩
    · by_cases h : xt_send ⟨lp, rp, frame_of L id p, (p.length + L.hsize) % SIZE_MOD, none, 0⟩ = 0
      · simp [h]
      · simp [h]
    · constructor
      · intro h
        refine ⟨_, _, hp, ?_⟩
        by_contra hs
        simp [hs] at h
      · rintro ⟨buf, size, hb, hs⟩
        rw [hp] at hb
        simp only [pack_result.mk.injEq, Option.some.injEq, true_and] at hb
        obtain ⟨rfl, rfl⟩ := hb
        simp [hs]
    · intro h
      rw [hp] at h
      exact absurd rfl h
    · intro buf size hb
      rw [hp] at hb
      simp only [pack_result.mk.injEq, Option.some.injEq, true_and] at hb
      obtain ⟨rfl, rfl⟩ := hb
      rfl
    · intro _
      exact ⟨_, _, hp⟩

/-- C11 at a concrete input: `sample_dict` sent with id 42 from port 3 to
port 4 over a transport whose send succeeds; one call is made, with the 41
bytes of `sample_frame`. -/
theorem pipe_send_outcome_witness :
    (sample_dict.xo_xpc_type = xpc_type_tag._XPC_TYPE_DICTIONARY ∧
      xpc_pipe_send spec_frame sample_codec send_ok sample_dict 42 3 4 =
        some ⟨0, [⟨3, 4, sample_frame, 41, none, 0⟩]⟩) ∧
    ∃ out : pipe_send_result,
      xpc_pipe_send spec_frame sample_codec send_ok sample_dict 42 3 4 = some out ∧
      (out.ret = 0 ∨ out.ret = -1) ∧
      (out.ret = 0 ↔
        ∃ buf size, xpc_pack spec_frame sample_codec sample_dict 42 =
            ⟨0, some buf, some size⟩ ∧
          send_ok ⟨3, 4, buf, size, none, 0⟩ = 0) ∧
      ((xpc_pack spec_frame sample_codec sample_dict 42).ret ≠ 0 → out.sends = []) ∧
      (∀ buf size, xpc_pack spec_frame sample_codec sample_dict 42 =
          ⟨0, some buf, some size⟩ →
        out.sends = [⟨3, 4, buf, size, none, 0⟩]) ∧
      ((xpc_pack spec_frame sample_codec sample_dict 42).ret = 0 →
        ∃ buf size, xpc_pack spec_frame sample_codec sample_dict 42 =
          ⟨0, some buf, some size⟩) :=
  ⟨⟨by decide, by decide⟩,
    pipe_send_outcome spec_frame sample_codec send_ok sample_dict 42 3 4 (by decide)⟩

/-! ## Transport failures -/

/-- C14 as stated fails: a receive on which the transport returns -2 makes
`xpc_pipe_receive` return -1, not -2; a send on which the transport returns
7 makes `xpc_pipe_send` return -1, not 7. -/
theorem transport_error_not_verbatim :
    failed_recv.ret = -2 ∧
    (xpc_pipe_receive spec_frame sample_codec failed_recv 0 none).ret = -1 ∧
    (xpc_pipe_receive spec_frame sample_codec failed_recv 0 none).ret ≠ failed_recv.ret ∧
    send_fails ⟨3, 4, sample_frame, 41, none, 0⟩ = 7 ∧
    xpc_pipe_send spec_frame sample_codec send_fails sample_dict 42 3 4 =
      some ⟨-1, [⟨3, 4, sample_frame, 41, none, 0⟩]⟩ := by
  refine ⟨rfl, by decide, by decide, rfl, by decide⟩

/-- C14, as the code has it: for every negative result of the transport's
receive, `xpc_pipe_receive` returns -1 (and touches nothing); for every
dictionary, when the transport's send returns a non-zero value on the call
made (or `xpc_pack` fails), `xpc_pipe_send` returns -1. The transport's own value is returned only
when it is -1. -/
theorem transport_failure_returns_minus_one {τ : Type} (L : frame_decl)
    (C : mpack_codec τ) (r : xt_recv_result) (id0 : Nat) (result0 : Option xpc_object)
    (xt_send : xt_send_call → Int) (xobj : xpc_object) (id lp rp : Nat)
    (hrecv : r.ret < 0)
    (hdict : xobj.xo_xpc_type = xpc_type_tag._XPC_TYPE_DICTIONARY)
    (hsend : ∀ buf size, xpc_pack L C xobj id = ⟨0, some buf, some size⟩ →
      xt_send ⟨lp, rp, buf, size, none, 0⟩ ≠ 0) :
    (xpc_pipe_receive L C r id0 result0).ret = -1 ∧
    (xpc_pipe_receive L C r id0 result0).events = [] ∧
    (∃ sends, xpc_pipe_send L C xt_send xobj id lp rp = some ⟨-1, sends⟩) := by
  rw [pipe_receive_of_neg L C r id0 result0 hrecv]
  refine ⟨rfl, rfl, ?_⟩
  rcases xpc_pack_ret_cases L C xobj id with ⟨_, hp⟩ | ⟨p, _, hp⟩
  · have hne : (xpc_pack L C xobj id).ret ≠ 0 := by rw [hp]; decide
    exact ⟨[], pipe_send_of_pack_failed L C xt_send xobj id lp rp hdict hne⟩
  · refine ⟨[⟨lp, rp, frame_of L id p, (p.length + L.hsize) % SIZE_MOD, none, 0⟩], ?_⟩
    rw [pipe_send_of_packed L C xt_send xobj id lp rp _ _ hdict hp, if_pos (hsend _ _ hp)]

/-- C14, as the code has it, at a concrete input: the transport returns -2
on receive and 7 on send. -/
theorem transport_failure_returns_minus_one_witness :
    (failed_recv.ret < 0 ∧
      sample_dict.xo_xpc_type = xpc_type_tag._XPC_TYPE_DICTIONARY ∧
      ∀ buf size, xpc_pack spec_frame sample_codec sample_dict 42 =
          ⟨0, some buf, some size⟩ →
        send_fails ⟨3, 4, buf, size, none, 0⟩ ≠ 0) ∧
    ((xpc_pipe_receive spec_frame sample_codec failed_recv 0 none).ret = -1 ∧
      (xpc_pipe_receive spec_frame sample_codec failed_recv 0 none).events = [] ∧
      (∃ sends, xpc_pipe_send spec_frame sample_codec send_fails sample_dict 42 3 4 =
        some ⟨-1, sends⟩)) :=
  ⟨⟨by decide, by decide, fun _ _ _ => by simp [send_fails]⟩,
    transport_failure_returns_minus_one spec_frame sample_codec failed_recv 0 none
      send_fails sample_dict 42 3 4 (by decide) (by decide)
      (fun _ _ _ => by simp [send_fails])⟩

/-! ## Receiving: what the early exits leave alone -/

/-- C16: when the transport's receive returns a negative value or 0, or the
header fails the length check or the version check, `xpc_pipe_receive`
stores nothing (no event at all) and `*id` and `*result` hold what they held
before the call. A store through `id` occurs exactly when the count is
positive and both header checks have passed, and it stores `header->id`;
this is so also when the decoder then fails, in which case -1 is returned
with `*id` written. -/
theorem early_exits_leave_outputs {τ : Type} (L : frame_decl) (C : mpack_codec τ)
    (r : xt_recv_result) (id0 : Nat) (result0 : Option xpc_object) :
    ((r.ret < 0 ∨ r.ret = 0 ∨ length_refused L r ∨ version_refused L r) →
      (xpc_pipe_receive L C r id0 result0).events = [] ∧
      (xpc_pipe_receive L C r id0 result0).id = id0 ∧
      (xpc_pipe_receive L C r id0 result0).result = result0) ∧
    (∀ v, recv_event.store_id v ∈ (xpc_pipe_receive L C r id0 result0).events ↔
      (0 < r.ret ∧ ¬ length_refused L r ∧ ¬ version_refused L r ∧
        v = header_id L r.buffer)) ∧
    ((0 < r.ret ∧ ¬ length_refused L r ∧ ¬ version_refused L r ∧
        xpc_unpack C (frame_payload L r) = none) →
      (xpc_pipe_receive L C r id0 result0).ret = -1 ∧
      (xpc_pipe_receive L C r id0 result0).id = header_id L r.buffer ∧
      (xpc_pipe_receive L C r id0 result0).events.head? =
        some (recv_event.store_id (header_id L r.buffer))) := by
  rcases lt_trichotomy r.ret 0 with hneg | hzero | hpos
  · rw [pipe_receive_of_neg L C r id0 result0 hneg]
    have h2 : ¬ 0 < r.ret := by omega
    simp [h2]
  · rw [pipe_receive_of_zero L C r id0 result0 hzero]
    simp [hzero]
  · have hne : ¬ r.ret = 0 := by omega
    have hnn : ¬ r.ret < 0 := by omega
    by_cases hl : length_refused L r
    · rw [pipe_receive_of_length_refused L C r id0 result0 hpos hl]
      simp [hl]
    · by_cases hv : version_refused L r
      · rw [pipe_receive_of_version_refused L C r id0 result0 hpos hv]
        simp [hv]
      · rw [pipe_receive_of_accepted L C r id0 result0 hpos hl hv]
        refine ⟨?_, ?_, ?_⟩
        · intro h
          rcases h with h | h | h | h
          · exact absurd h hnn
          · exact absurd h hne
          · exact absurd h hl
          · exact absurd h hv
        · intro v
          rcases hx : (xpc_unpack C (frame_payload L r)).isSome with _ | _
          · simp [hl, hv, hpos]
          · simp [hl, hv, hpos]
        · rintro ⟨_, _, _, hnone⟩
          simp [hnone]

/-- C16 at concrete inputs: a frame refused for its version leaves
`*id = 99` and `*result` alone; a frame that passes both checks and that
the small codec cannot decode returns -1 with `*id` set to the id 7 of the
header. -/
theorem early_exits_leave_outputs_witness :
    (version_refused spec_frame wrong_version_read ∧
      (xpc_pipe_receive spec_frame sample_codec wrong_version_read 99 none).id = 99) ∧
    ((0 < undecodable_read.ret ∧ ¬ length_refused spec_frame undecodable_read ∧
        ¬ version_refused spec_frame undecodable_read ∧
        xpc_unpack sample_codec (frame_payload spec_frame undecodable_read) = none) ∧
      (xpc_pipe_receive spec_frame sample_codec undecodable_read 99 none).ret = -1 ∧
      (xpc_pipe_receive spec_frame sample_codec undecodable_read 99 none).id = 7) :=
  have hw : version_refused spec_frame wrong_version_read := by decide
  have hu : 0 < undecodable_read.ret ∧ ¬ length_refused spec_frame undecodable_read ∧
      ¬ version_refused spec_frame undecodable_read ∧
      xpc_unpack sample_codec (frame_payload spec_frame undecodable_read) = none :=
    ⟨by decide, by decide, by decide, by rfl⟩
  ⟨⟨hw, ((early_exits_leave_outputs spec_frame sample_codec wrong_version_read 99 none).1
      (Or.inr (Or.inr (Or.inr hw)))).2.1⟩,
    hu,
    ((early_exits_leave_outputs spec_frame sample_codec undecodable_read 99 none).2.2 hu).1,
    ((early_exits_leave_outputs spec_frame sample_codec undecodable_read 99 none).2.2
      hu).2.1.trans (by decide)⟩

/-! ## Description -/

mutual
theorem description_body_append (E : description_env) :
    ∀ (xo : xpc_object) (sb : sbuf) (level : Nat),
      description_body E xo sb level = sb ++ description_body E xo [] level
  | .dictionary a r ps, sb, level => by
    rw [description_body, description_body,
      dictionary_apply_block_eq E ps (sb ++ _ ++ _ ++ _ ++ _) level,
      dictionary_apply_block_eq E ps ([] ++ _ ++ _ ++ _ ++ _) level]
    simp only [List.append_assoc, List.nil_append]
  | .array a r es, sb, level => by
    rw [description_body, description_body,
      array_apply_block_eq E es 0 (sb ++ _ ++ _ ++ _ ++ _) level,
      array_apply_block_eq E es 0 ([] ++ _ ++ _ ++ _ ++ _) level]
    simp only [List.append_assoc, List.nil_append]
  | .scalar a r v, sb, level => by
    rw [description_body, description_body]
    simp only [List.append_assoc, List.nil_append]
theorem dictionary_apply_block_eq (E : description_env) :
    ∀ (ps : List (Nat × String × xpc_object)) (sb : sbuf) (level : Nat),
      dictionary_apply_block E ps sb level =
        sb ++ (ps.map (entry_text E (printf_pad_s (level * 4) " ".toList) level)).flatten
  | [], sb, level => by
    rw [dictionary_apply_block]
    simp
  | (p, k, v) :: rest, sb, level => by
    rw [dictionary_apply_block, dictionary_apply_block_eq E rest _ level,
      description_body_append E v _ (level + 1)]
    simp only [List.map_cons, List.flatten_cons, entry_text, List.append_assoc]
theorem array_apply_block_eq (E : description_env) :
    ∀ (es : List xpc_object) (idx : Nat) (sb : sbuf) (level : Nat),
      array_apply_block E es idx sb level =
        sb ++ ((es.enumFrom idx).map
          (printed_element_text E (printf_pad_s (level * 4) " ".toList) level)).flatten
  | [], idx, sb, level => by
    rw [array_apply_block]
    simp
  | v :: rest, idx, sb, level => by
    rw [array_apply_block, array_apply_block_eq E rest (idx + 1) _ level,
      description_body_append E v _ (level + 1)]
    simp only [List.enumFrom_cons, List.map_cons, List.flatten_cons, printed_element_text,
      List.append_assoc]
end

theorem printf_ld_of_index (i : Nat) (h : i < 2 ^ 63) :
    printf_ld (long_of_size_t i) = Nat.toDigits 10 i := by
  have h64 : i % SIZE_MOD = i := by
    apply Nat.mod_eq_of_lt
    unfold SIZE_MOD
    have : (2 : Nat) ^ 63 < 2 ^ 64 := by norm_num
    omega
  unfold long_of_size_t printf_ld
  rw [h64, if_pos h]
  have hnn : ¬ ((i : Nat) : Int) < 0 := by omega
  rw [if_neg hnn, Int.toNat_ofNat]

theorem printed_element_texts_eq (E : description_env) (indent : List Char) (level : Nat) :
    ∀ (es : List xpc_object) (idx : Nat), idx + es.length ≤ 2 ^ 63 →
      (es.enumFrom idx).map (printed_element_text E indent level) =
        (es.enumFrom idx).map (element_text E indent level)
  | [], _, _ => rfl
  | v :: rest, idx, h => by
    have hlen : idx + 1 + rest.length ≤ 2 ^ 63 := by
      rw [List.length_cons] at h
      omega
    have hidx : idx < 2 ^ 63 := by
      rw [List.length_cons] at h
      omega
    rw [List.enumFrom_cons, List.map_cons, List.map_cons,
      printed_element_texts_eq E indent level rest (idx + 1) hlen]
    simp only [printed_element_text, element_text, printf_ld_of_index idx hidx]

/-- The indentation printed by `"%*s"` with width `4 * level` and argument
`" "`: `4 * level` spaces from level 1 on, and one space at level 0. -/
theorem indentation_width (level : Nat) :
    printf_pad_s (level * 4) " ".toList = List.replicate (max 1 (4 * level)) ' ' := by
  unfold printf_pad_s
  have hs : " ".toList = [' '] := rfl
  rw [hs, List.length_singleton]
  rcases Nat.eq_zero_or_pos level with h | h
  · subst h
    rfl
  · have e1 : max 1 (4 * level) = (level * 4 - 1) + 1 := by omega
    rw [e1, List.replicate_succ']

/-- C12 (the code at the failing input): at level 0 the conversion `"%*s"`
with width `4 * 0 = 0` and argument `" "` prints that one space, since a
width never truncates; the entries of a top-level dictionary are emitted
with one space before the quoted key, not with none. In the description of
`{"count": int64 5, "flags": [true, false]}` the two keys are preceded by
one space and the two array indices, at level 1, by four. -/
theorem top_level_entries_get_one_space :
    printf_pad_s (0 * 4) " ".toList = [' '] ∧
    (printf_pad_s (0 * 4) " ".toList).length = 1 ∧
    description_body spec_env (.dictionary 1 1 [(11, "count", .scalar 2 1 (.int64 5))]) [] 0 =
      "(dictionary) \n".toList ++ (" ".toList ++ "\"count\": ".toList ++
        description_body spec_env (.scalar 2 1 (.int64 5)) [] 1) ∧
    xpc_copy_description spec_env (some sample_dict) =
      "(dictionary) \n \"count\": (int64) 5\n \"flags\": (array) \n    0: (bool) true\n    1: (bool) false\n" := by
  refine ⟨by decide, by decide, by decide, by decide⟩

/-- C13: the description of a dictionary is the type name in parentheses, a
space and a newline, followed, for each entry in iteration order, by the
indentation, the key in double quotes, a colon, a space and the description
of the value; the description of an array is the same with, for the `i`-th
element counting from 0, the index `i` in decimal in place of the quoted
key (the index is printed with `%ld`, which is the decimal form for arrays
of at most `2 ^ 63` elements). Every description is appended to what the
buffer holds and starts with the type name of the node itself, so a node is
rendered before its children and the children in order, one after the
other. For `{"count": int64 5, "flags": [true, false]}` the output is the
text given, in which the quoted key `count`, `5`, the quoted key `flags`,
`0: `, `true`, `1: ` and `false` occur in this order. -/
theorem description_in_preorder (E : description_env) (level : Nat) :
    (∀ a r ps, description_body E (.dictionary a r ps) [] level =
      "(".toList ++ (E._xpc_get_type_name xpc_type_tag._XPC_TYPE_DICTIONARY).toList ++
        ") ".toList ++ "\n".toList ++
        (ps.map (entry_text E (printf_pad_s (level * 4) " ".toList) level)).flatten) ∧
    (∀ a r es, es.length ≤ 2 ^ 63 → description_body E (.array a r es) [] level =
      "(".toList ++ (E._xpc_get_type_name xpc_type_tag._XPC_TYPE_ARRAY).toList ++
        ") ".toList ++ "\n".toList ++
        (es.enum.map (element_text E (printf_pad_s (level * 4) " ".toList) level)).flatten) ∧
    (∀ xo sb, description_body E xo sb level = sb ++ description_body E xo [] level) ∧
    (∀ xo, ("(".toList ++ (E._xpc_get_type_name xo.xo_xpc_type).toList ++ ") ".toList) <+:
      description_body E xo [] level) ∧
    xpc_copy_description spec_env (some sample_dict) =
      "(dictionary) \n \"count\": (int64) 5\n \"flags\": (array) \n    0: (bool) true\n    1: (bool) false\n" ∧
    occur_in_order
      ["\"count\"".toList, "5".toList, "\"flags\"".toList, "0: ".toList, "true".toList,
        "1: ".toList, "false".toList]
      (xpc_copy_description spec_env (some sample_dict)).toList = true := by
  refine ⟨?_, ?_, fun xo sb => description_body_append E xo sb level, ?_, by decide,
    by decide⟩
  · intro a r ps
    rw [description_body, dictionary_apply_block_eq]
    simp only [List.nil_append]
  · intro a r es hlen
    rw [description_body, array_apply_block_eq, List.enum,
      printed_element_texts_eq E _ level es 0 (by omega)]
    simp only [List.nil_append]
  · intro xo
    cases xo with
    | dictionary a r ps =>
      rw [description_body, dictionary_apply_block_eq]
      exact ⟨"\n".toList ++
          (ps.map (entry_text E (printf_pad_s (level * 4) " ".toList) level)).flatten,
        by simp only [List.nil_append, List.append_assoc, xpc_object.xo_xpc_type]⟩
    | array a r es =>
      rw [description_body, array_apply_block_eq]
      exact ⟨"\n".toList ++
          ((es.enumFrom 0).map
            (printed_element_text E (printf_pad_s (level * 4) " ".toList) level)).flatten,
        by simp only [List.nil_append, List.append_assoc, xpc_object.xo_xpc_type]⟩
    | scalar a r v =>
      rw [description_body]
      exact ⟨scalar_text E v, by simp only [List.nil_append, List.append_assoc]⟩

/-- C13 at a concrete input: the array `[true, false]` of `sample_dict`,
described at level 1 (two elements, fewer than `2 ^ 63`). -/
theorem description_in_preorder_witness :
    [xpc_object.scalar 4 1 (.bool true), .scalar 5 1 (.bool false)].length ≤ 2 ^ 63 ∧
    description_body spec_env
        (.array 3 1 [.scalar 4 1 (.bool true), .scalar 5 1 (.bool false)]) [] 1 =
      "(".toList ++ (spec_env._xpc_get_type_name xpc_type_tag._XPC_TYPE_ARRAY).toList ++
        ") ".toList ++ "\n".toList ++
        ([xpc_object.scalar 4 1 (.bool true), .scalar 5 1 (.bool false)].enum.map
          (element_text spec_env (printf_pad_s (1 * 4) " ".toList) 1)).flatten ∧
    description_body spec_env
        (.array 3 1 [.scalar 4 1 (.bool true), .scalar 5 1 (.bool false)]) [] 1 =
      "(array) \n    0: (bool) true\n    1: (bool) false\n".toList :=
  ⟨by decide,
    (description_in_preorder spec_env 1).2.1 3 1
      [.scalar 4 1 (.bool true), .scalar 5 1 (.bool false)] (by decide),
    by decide⟩

/-- C15 (the code at the failing input): the `switch` of line 227 has no
case for the tags double, data, file descriptor and error. For a value of
one of these tags `xpc_copy_description` returns the type-name text
`"(name) "` and nothing else: no textual form and no newline. The double
1.5 is described as `(double) `; in a dictionary the entry that follows a
double continues on the same line. -/
theorem double_has_no_text_and_no_newline (E : description_env) (a r : Nat) :
    (∀ bits, xpc_copy_description E (some (.scalar a r (.double bits))) =
      String.mk ("(".toList ++ (E._xpc_get_type_name xpc_type_tag._XPC_TYPE_DOUBLE).toList ++
        ") ".toList)) ∧
    (∀ bytes, xpc_copy_description E (some (.scalar a r (.data bytes))) =
      String.mk ("(".toList ++ (E._xpc_get_type_name xpc_type_tag._XPC_TYPE_DATA).toList ++
        ") ".toList)) ∧
    (∀ fd, xpc_copy_description E (some (.scalar a r (.fd fd))) =
      String.mk ("(".toList ++ (E._xpc_get_type_name xpc_type_tag._XPC_TYPE_FD).toList ++
        ") ".toList)) ∧
    (∀ code, xpc_copy_description E (some (.scalar a r (.error code))) =
      String.mk ("(".toList ++ (E._xpc_get_type_name xpc_type_tag._XPC_TYPE_ERROR).toList ++
        ") ".toList)) ∧
    xpc_copy_description spec_env (some sample_double) = "(double) " ∧
    '\n' ∉ (xpc_copy_description spec_env (some sample_double)).toList ∧
    xpc_copy_description spec_env (some dict_with_double) =
      "(dictionary) \n \"ratio\": (double)  \"n\": (int64) 7\n" := by
  refine ⟨fun _ => ?_, fun _ => ?_, fun _ => ?_, fun _ => ?_, by decide, by decide,
    by decide⟩ <;>
  simp [xpc_copy_description, xpc_copy_description_level, description_body, scalar_text,
    xpc_object.xo_xpc_type]

/-- The scalars the `switch` has a case for are described as the type-name
text, a textual form and one final newline. -/
theorem handled_scalar_descriptions (E : description_env) (a r : Nat) :
    (∀ b, xpc_copy_description_level E (some (.scalar a r (.bool b))) [] 0 =
      "(".toList ++ (E._xpc_get_type_name xpc_type_tag._XPC_TYPE_BOOL).toList ++ ") ".toList ++
        (if b then "true" else "false").toList ++ ['\n']) ∧
    (∀ i, xpc_copy_description_level E (some (.scalar a r (.int64 i))) [] 0 =
      "(".toList ++ (E._xpc_get_type_name xpc_type_tag._XPC_TYPE_INT64).toList ++ ") ".toList ++
        printf_ld i ++ ['\n']) ∧
    (∀ ui, xpc_copy_description_level E (some (.scalar a r (.uint64 ui))) [] 0 =
      "(".toList ++ (E._xpc_get_type_name xpc_type_tag._XPC_TYPE_UINT64).toList ++
        ") ".toList ++ printf_lx ui ++ ['\n']) ∧
    (∀ s, xpc_copy_description_level E (some (.scalar a r (.string s))) [] 0 =
      "(".toList ++ (E._xpc_get_type_name xpc_type_tag._XPC_TYPE_STRING).toList ++
        ") ".toList ++ ['"'] ++ s.toList ++ ['"'] ++ ['\n']) ∧
    xpc_copy_description_level E (some (.scalar a r .null)) [] 0 =
      "(".toList ++ (E._xpc_get_type_name xpc_type_tag._XPC_TYPE_NULL).toList ++ ") ".toList ++
        "<null>".toList ++ ['\n'] := by
  refine ⟨fun _ => ?_, fun _ => ?_, fun _ => ?_, fun _ => ?_, ?_⟩ <;>
  simp [xpc_copy_description_level, description_body, scalar_text, xpc_object.xo_xpc_type]

end XpcMisc
